import Mathlib

set_option linter.all false

/-!
Verification development for the PyRaysum driver module (`prs.py`).

The Python source is shallowly embedded over the rationals.  Numeric values
are modelled by `ℚ`; the single irrational constant appearing in the source,
the degree-to-radian factor `π / 180`, is threaded through as an abstract
parameter `degrad`, so that every definition remains executable.  Fallible
Python operations (out-of-range indexing, numpy broadcasting failures,
unknown keys) are modelled with an error type `PyErr`; mutating methods
return the state reached at the point of the raise together with the error,
mirroring CPython's in-place mutation semantics.
-/

/-- Kinds of Python exceptions raised by the embedded code: `IndexError`
(plain invalid argument / out of range), `ValueError` (domain violations and
numpy broadcasting failures) and `KeyError` (dictionary lookup failures). -/
inductive PyErr where
  | indexError
  | valueError
  | keyError
  deriving DecidableEq, Repr

/-- Python slice `l[a:b]` for non-negative bounds: elements `a .. b-1`,
clamped to the list. -/
def pySlice (l : List ℚ) (a b : Nat) : List ℚ :=
  (l.drop a).take (b - a)

/-- Bounds-checked element read `l[i]` (numpy/`list` indexing raises
`IndexError` out of range). -/
def pyListGet (l : List ℚ) (i : Nat) : Except PyErr ℚ :=
  if i < l.length then .ok (l.getD i 0) else .error .indexError

/-- Bounds-checked element write `l[i] = v`. -/
def pyListSet (l : List ℚ) (i : Nat) (v : ℚ) : Except PyErr (List ℚ) :=
  if i < l.length then .ok (l.set i v) else .error .indexError

/-- Bounds-checked in-place read-modify-write `l[i] op= ...`. -/
def pyListUpdate (l : List ℚ) (i : Nat) (f : ℚ → ℚ) : Except PyErr (List ℚ) :=
  if i < l.length then .ok (l.set i (f (l.getD i 0))) else .error .indexError

/-- numpy elementwise binary operation with length-1 broadcasting: arrays of
equal length combine pointwise, a length-1 array broadcasts against the
other, and any other length combination raises (`ValueError`). -/
def npBinOp (f : ℚ → ℚ → ℚ) (a b : List ℚ) : Except PyErr (List ℚ) :=
  if a.length = b.length then .ok (List.zipWith f a b)
  else if a.length = 1 then .ok (b.map (fun x => f (a.headD 0) x))
  else if b.length = 1 then .ok (a.map (fun x => f x (b.headD 0)))
  else .error .valueError

/-- numpy elementwise division with broadcasting. -/
def npDiv (a b : List ℚ) : Except PyErr (List ℚ) := npBinOp (· / ·) a b

/-- numpy elementwise multiplication with broadcasting. -/
def npMul (a b : List ℚ) : Except PyErr (List ℚ) := npBinOp (· * ·) a b

/-- `np.delete(l, n)`: remove the element at index `n`, raising out of
range. -/
def npDeleteOne (l : List ℚ) (n : Nat) : Except PyErr (List ℚ) :=
  if n < l.length then .ok (l.eraseIdx n) else .error .indexError

/-- `np.delete(l, range(a, b))`: remove indices `a .. b-1`; raises when the
range is non-empty and reaches past the end of the array. -/
def npDeleteRange (l : List ℚ) (a b : Nat) : Except PyErr (List ℚ) :=
  if a < b then
    if l.length < b then .error .indexError
    else .ok (l.take a ++ l.drop b)
  else .ok l

/-- `np.insert(l, n, l[n])`: read `l[n]` (raising out of range) and insert a
copy of it directly before position `n`. -/
def npInsertDup (l : List ℚ) (n : Nat) : Except PyErr (List ℚ) :=
  if n < l.length then .ok (l.take n ++ [l.getD n 0] ++ l.drop n)
  else .error .indexError

/-- State of a `prs.Model` instance: the user attribute arrays, the layer
count and capacity, and the mirrored fixed-capacity solver arrays. -/
structure ModelState where
  nlay : Nat
  thickn : List ℚ
  rho : List ℚ
  vp : List ℚ
  vs : List ℚ
  vpvs : List ℚ
  flag : List ℚ
  ani : List ℚ
  trend : List ℚ
  plunge : List ℚ
  strike : List ℚ
  dip : List ℚ
  maxlay : Nat
  fthickn : List ℚ
  frho : List ℚ
  fvp : List ℚ
  fvs : List ℚ
  fflag : List ℚ
  fani : List ℚ
  ftrend : List ℚ
  fplunge : List ℚ
  fstrike : List ℚ
  fdip : List ℚ
  deriving DecidableEq, Repr

/-- The user attributes iterated by the layer-editing loops
(`Model._useratts`), in source order. -/
inductive MAttr where
  | thickn | rho | vp | vs | vpvs | flag | ani | trend | plunge | strike | dip
  deriving DecidableEq, Repr

/-- Read a user attribute array by name. -/
def ModelState.getAttr (m : ModelState) : MAttr → List ℚ
  | .thickn => m.thickn
  | .rho => m.rho
  | .vp => m.vp
  | .vs => m.vs
  | .vpvs => m.vpvs
  | .flag => m.flag
  | .ani => m.ani
  | .trend => m.trend
  | .plunge => m.plunge
  | .strike => m.strike
  | .dip => m.dip

/-- Replace a user attribute array by name. -/
def ModelState.setAttr (m : ModelState) (a : MAttr) (l : List ℚ) : ModelState :=
  match a with
  | .thickn => { m with thickn := l }
  | .rho => { m with rho := l }
  | .vp => { m with vp := l }
  | .vs => { m with vs := l }
  | .vpvs => { m with vpvs := l }
  | .flag => { m with flag := l }
  | .ani => { m with ani := l }
  | .trend => { m with trend := l }
  | .plunge => { m with plunge := l }
  | .strike => { m with strike := l }
  | .dip => { m with dip := l }

/-- `Model._useratts` in source order. -/
def USERATTS : List MAttr :=
  [.thickn, .rho, .vp, .vs, .vpvs, .flag, .ani, .trend, .plunge, .strike, .dip]

/-- `np.append(l, np.zeros(k))`: zero-pad a user array by `k` entries. -/
def fpad (l : List ℚ) (k : Nat) : List ℚ := l ++ List.replicate k 0

/-- `Model._set_fattributes`: regenerate the fixed-capacity mirror arrays
from the user attributes.  `np.zeros(maxlay - nlay)` raises when the layer
count exceeds the capacity (negative size); angle attributes are scaled by
the degree-to-radian factor `degrad` (standing for `np.pi / 180`). -/
def Model.set_fattributes (degrad : ℚ) (m : ModelState) : Except PyErr ModelState :=
  if m.maxlay < m.nlay then .error .valueError
  else
    let k := m.maxlay - m.nlay
    .ok { m with
      fthickn := fpad m.thickn k
      frho := fpad m.rho k
      fvp := fpad m.vp k
      fvs := fpad m.vs k
      fflag := fpad m.flag k
      fani := fpad m.ani k
      ftrend := (fpad m.trend k).map (· * degrad)
      fplunge := (fpad m.plunge k).map (· * degrad)
      fstrike := (fpad m.strike k).map (· * degrad)
      fdip := (fpad m.dip k).map (· * degrad) }

/-- `Model.update(fix=...)`: recompute the dependent velocity attribute and
regenerate the mirror.  `fix` is `None`, `'vp'` or `'vs'`; any other
non-empty string raises `ValueError` (the empty string is falsy in Python
and behaves like `None`).  Returns the state reached at the point of a
raise together with the error. -/
def Model.update (degrad : ℚ) (m : ModelState) (fix : Option String) :
    ModelState × Option PyErr :=
  let recompute : ModelState → ModelState × Option PyErr := fun m0 =>
    match npDiv m0.vp m0.vs with
    | .error e => (m0, some e)
    | .ok vpvs' =>
      let m1 := { m0 with vpvs := vpvs' }
      match Model.set_fattributes degrad m1 with
      | .error e => (m1, some e)
      | .ok m2 => (m2, none)
  match fix with
  | none => recompute m
  | some s =>
    if s = "vp" then
      match npDiv m.vp m.vpvs with
      | .error e => (m, some e)
      | .ok vs' =>
        let m1 := { m with vs := vs' }
        match Model.set_fattributes degrad m1 with
        | .error e => (m1, some e)
        | .ok m2 => (m2, none)
    else if s = "vs" then
      match npMul m.vs m.vpvs with
      | .error e => (m, some e)
      | .ok vp' =>
        let m1 := { m with vp := vp' }
        match Model.set_fattributes degrad m1 with
        | .error e => (m1, some e)
        | .ok m2 => (m2, none)
    else if s = "" then recompute m
    else (m, some .valueError)

/-- The optional per-layer constructor arguments (`None`, a scalar that is
broadcast, or an explicit array), as accepted by `Model.__init__`. -/
inductive OptArg where
  | none
  | scalar (q : ℚ)
  | arr (l : List ℚ)

/-- `Model.__init__._get_val`. -/
def getVal (nlay : Nat) : OptArg → List ℚ
  | .none => List.replicate nlay 0
  | .scalar q => List.replicate nlay q
  | .arr l => l

/-- The `flag` constructor argument: an integer scalar broadcast to all
layers, or an explicit array. -/
inductive FlagArg where
  | scalar (q : ℚ)
  | arr (l : List ℚ)

/-- Materialisation of the `flag` argument. -/
def flagVal (nlay : Nat) : FlagArg → List ℚ
  | .scalar q => List.replicate nlay q
  | .arr l => l

/-- `Model.__init__`: `nlay` is the length of `thickn`; `vpvs` is derived by
numpy division `vp / vs` (broadcasting, possibly raising); optional arrays
default to zeros; finally the mirror is generated.  The mirror fields of the
intermediate record are placeholders overwritten by `_set_fattributes`. -/
def Model.init (degrad : ℚ) (thickn rho vp vs : List ℚ) (flag : FlagArg)
    (ani trend plunge strike dip : OptArg) (maxlay : Nat) :
    Except PyErr ModelState :=
  let nlay := thickn.length
  match npDiv vp vs with
  | .error e => .error e
  | .ok vpvs =>
    Model.set_fattributes degrad
      { nlay := nlay
        thickn := thickn
        rho := rho
        vp := vp
        vs := vs
        vpvs := vpvs
        flag := flagVal nlay flag
        ani := getVal nlay ani
        trend := getVal nlay trend
        plunge := getVal nlay plunge
        strike := getVal nlay strike
        dip := getVal nlay dip
        maxlay := maxlay
        fthickn := []
        frho := []
        fvp := []
        fvs := []
        fflag := []
        fani := []
        ftrend := []
        fplunge := []
        fstrike := []
        fdip := [] }

/-- Python `str.split(sep)` on a single separator character (the source
splits commands on `';'` and candidate sign characters). -/
def splitOnChar (c : Char) : List Char → List (List Char)
  | [] => [[]]
  | x :: xs =>
    if x = c then [] :: splitOnChar c xs
    else
      match splitOnChar c xs with
      | [] => [[x]]
      | g :: gs => (x :: g) :: gs

/-- Index of the first decimal digit, as in the source's
`for n, char in enumerate(attlay): if char in '0123456789': break`. -/
def findDigitIdx : List Char → Option Nat
  | [] => none
  | c :: cs => if c.isDigit then some 0 else (findDigitIdx cs).map (· + 1)

/-- Python `str.strip()`. -/
def trimChars (l : List Char) : List Char :=
  ((l.dropWhile Char.isWhitespace).reverse.dropWhile Char.isWhitespace).reverse

/-- Accumulate a digit string into a natural number. -/
def digitsToNat (l : List Char) : Nat :=
  l.foldl (fun acc c => acc * 10 + (c.toNat - 48)) 0

/-- Python `int(s)` restricted to unsigned decimal literals (the layer index
of a `change` directive); anything else raises and is mapped to `none`. -/
def parseNatChars (l : List Char) : Option Nat :=
  let t := trimChars l
  if t ≠ [] ∧ t.all Char.isDigit then some (digitsToNat t) else none

/-- Python `float(s)` restricted to signed decimal literals (no exponent
notation, which the `change` mini-grammar never uses). -/
def parseDecChars (l : List Char) : Option ℚ :=
  let t := trimChars l
  let sgn : ℚ × List Char :=
    match t with
    | '-' :: rest => (-1, rest)
    | '+' :: rest => (1, rest)
    | rest => (1, rest)
  match splitOnChar '.' sgn.2 with
  | [ip] =>
    if ip ≠ [] ∧ ip.all Char.isDigit then some (sgn.1 * digitsToNat ip) else none
  | [ip, fp] =>
    if (ip ≠ [] ∨ fp ≠ []) ∧ ip.all Char.isDigit ∧ fp.all Char.isDigit then
      some (sgn.1 * ((digitsToNat ip : ℚ) + (digitsToNat fp : ℚ) / (10 ^ fp.length)))
    else none
  | _ => none

/-- The candidate sign characters tried in order by `Model.change`. -/
def SIGNS : List Char := ['=', '+', '-']

/-- Syntactic decomposition of one `change` directive `KEY LAYER SIGN VAL`:
the first sign character splitting the command into exactly two parts wins;
the attribute key runs up to the first digit (Python's fallback when no
digit exists lands on the last index, whose suffix then fails integer
parsing); the layer index and value are parsed numerically.  Returns the
(unvalidated) key, the sign, the layer and the value, or `none` when the
source would raise while parsing. -/
def parseDirective (cmd : List Char) : Option (List Char × Char × Nat × ℚ) :=
  match SIGNS.find? (fun s => (splitOnChar s cmd).length = 2) with
  | none => none
  | some sgn =>
    match splitOnChar sgn cmd with
    | [attlay, incs] =>
      match (match findDigitIdx attlay with
             | some n => some n
             | none => if attlay = [] then none else some (attlay.length - 1)) with
      | none => none
      | some n =>
        match parseNatChars (attlay.drop n), parseDecChars incs with
        | some lay, some inc => some (trimChars (attlay.take n), sgn, lay, inc)
        | _, _ => none
    | _ => none

/-- The `ATT` dictionary of `Model.change`, mapping directive keys to user
attributes; unknown keys give `none` (the source's `KeyError`). -/
def ATTmap (att : List Char) : Option MAttr :=
  if att = ['t'] then some .thickn
  else if att = ['v', 'p'] then some .vp
  else if att = ['v', 's'] then some .vs
  else if att = ['p', 's', 'p'] then some .vpvs
  else if att = ['p', 's', 's'] then some .vpvs
  else if att = ['s'] then some .strike
  else if att = ['d'] then some .dip
  else if att = ['a'] then some .ani
  else if att = ['t', 'r'] then some .trend
  else if att = ['p', 'l'] then some .plunge
  else none

/-- Application of a directive's sign to the targeted entry. -/
def applyOp (sgn : Char) (old inc : ℚ) : ℚ :=
  if sgn = '=' then inc else if sgn = '+' then old + inc else old - inc

/-- The statements of `Model.change`'s loop body after a directive has been
parsed and its value converted: apply the signed assignment to the targeted
attribute, recompute the layer's isotropy flag from its anisotropy, and
call `update` with the key's fix mode. -/
def applyDirective (degrad : ℚ) (m : ModelState) (attr : MAttr) (lay : Nat)
    (sgn : Char) (inc : ℚ) (fix : Option String) : ModelState × Option PyErr :=
  match pyListUpdate (m.getAttr attr) lay (fun old => applyOp sgn old inc) with
  | .error e => (m, some e)
  | .ok l' =>
    let m1 := m.setAttr attr l'
    match pyListSet m1.flag lay 1 with
    | .error e => (m1, some e)
    | .ok fl1 =>
      let m2 := { m1 with flag := fl1 }
      match pyListGet m2.ani lay with
      | .error e => (m2, some e)
      | .ok aval =>
        let m3 := if aval ≠ 0 then { m2 with flag := m2.flag.set lay 0 } else m2
        Model.update degrad m3 fix

/-- The body of `Model.change`'s loop for one directive: parse, convert
thickness/velocity values from kilometres (`* 1000`), pick the fix mode for
ratio keys, and apply. -/
def Model.changeOne (degrad : ℚ) (m : ModelState) (cmd : List Char) :
    ModelState × Option PyErr :=
  match parseDirective cmd with
  | none => (m, some .valueError)
  | some (att, sgn, lay, rawInc) =>
    let inc := if att = ['t'] ∨ att = ['v', 'p'] ∨ att = ['v', 's'] then
      rawInc * 1000 else rawInc
    let fix : Option String :=
      if att = ['p', 's', 's'] then some "vp"
      else if att = ['p', 's', 'p'] then some "vs"
      else none
    match ATTmap att with
    | none => (m, some .keyError)
    | some attr => applyDirective degrad m attr lay sgn inc fix

/-- `Model.change`'s iteration over the semicolon-separated directives:
falsy (empty) substrings are skipped; the first raise aborts the loop with
earlier directives already applied. -/
def Model.changeList (degrad : ℚ) : ModelState → List (List Char) → ModelState × Option PyErr
  | m, [] => (m, none)
  | m, c :: cs =>
    if c = [] then Model.changeList degrad m cs
    else
      match Model.changeOne degrad m c with
      | (m', none) => Model.changeList degrad m' cs
      | r => r

/-- `Model.change(commands)`. -/
def Model.change (degrad : ℚ) (m : ModelState) (commands : String) :
    ModelState × Option PyErr :=
  Model.changeList degrad m (splitOnChar ';' commands.data)

/-- The `np.insert` loop shared by `split_layer`: duplicate row `n` of each
user attribute, stopping (with the earlier attributes already mutated) at
the first raise. -/
def insertLoop (n : Nat) : ModelState → List MAttr → ModelState × Option PyErr
  | m, [] => (m, none)
  | m, a :: rest =>
    match npInsertDup (m.getAttr a) n with
    | .error e => (m, some e)
    | .ok l' => insertLoop n (m.setAttr a l') rest

/-- `Model.split_layer(n)`: duplicate layer `n`, halve both copies'
thicknesses, bump the layer count and `update`. -/
def Model.split_layer (degrad : ℚ) (m : ModelState) (n : Nat) :
    ModelState × Option PyErr :=
  match insertLoop n m USERATTS with
  | (m1, some e) => (m1, some e)
  | (m1, none) =>
    match pyListUpdate m1.thickn n (· / 2) with
    | .error e => (m1, some e)
    | .ok t1 =>
      match pyListUpdate t1 (n + 1) (· / 2) with
      | .error e => ({ m1 with thickn := t1 }, some e)
      | .ok t2 => Model.update degrad { m1 with thickn := t2, nlay := m1.nlay + 1 } none

/-- The `np.delete` loop of `remove_layer`. -/
def deleteLoop (n : Nat) : ModelState → List MAttr → ModelState × Option PyErr
  | m, [] => (m, none)
  | m, a :: rest =>
    match npDeleteOne (m.getAttr a) n with
    | .error e => (m, some e)
    | .ok l' => deleteLoop n (m.setAttr a l') rest

/-- `Model.remove_layer(n)`: delete row `n` of every user attribute,
decrement the layer count and `update`. -/
def Model.remove_layer (degrad : ℚ) (m : ModelState) (n : Nat) :
    ModelState × Option PyErr :=
  match deleteLoop n m USERATTS with
  | (m1, some e) => (m1, some e)
  | (m1, none) => Model.update degrad { m1 with nlay := m1.nlay - 1 } none

/-- One attribute step of `combine_layers`' loop: optionally overwrite the
entry at `top` with the combined value (`KeyError`s for attributes outside
the `layer` dictionary are swallowed), then delete rows `top+1 .. bot-1`.
On a raise the list reached so far is returned. -/
def combineStep (l : List ℚ) (v? : Option ℚ) (top bot : Nat) :
    List ℚ × Option PyErr :=
  match v? with
  | none =>
    match npDeleteRange l (top + 1) bot with
    | .error e => (l, some e)
    | .ok l' => (l', none)
  | some v =>
    match pyListSet l top v with
    | .error e => (l, some e)
    | .ok l1 =>
      match npDeleteRange l1 (top + 1) bot with
      | .error e => (l1, some e)
      | .ok l2 => (l2, none)

/-- `combine_layers`' loop over the user attributes. -/
def combineLoop (top bot : Nat) (lv : MAttr → Option ℚ) :
    ModelState → List MAttr → ModelState × Option PyErr
  | m, [] => (m, none)
  | m, a :: rest =>
    match combineStep (m.getAttr a) (lv a) top bot with
    | (l', none) => combineLoop top bot lv (m.setAttr a l') rest
    | (l', some e) => (m.setAttr a l', some e)

/-- `Model.combine_layers(top, bottom)`: reject `bottom <= top`
(`IndexError`); reject anisotropic layers and differing dip or strike in
the inclusive range (`ValueError`, reading `slice[0]` of an empty slice
raises `IndexError`); then merge: summed thickness, thickness-weighted
`vp`, `vs`, `rho` at `top`, delete rows `top+1 .. bottom`, shrink the layer
count and `update`. -/
def Model.combine_layers (degrad : ℚ) (m : ModelState) (top bottom : Nat) :
    ModelState × Option PyErr :=
  if bottom ≤ top then (m, some .indexError)
  else
    let bot := bottom + 1
    if ¬ (pySlice m.flag top bot).all (fun x => x != 0) then (m, some .valueError)
    else
      match pySlice m.dip top bot with
      | [] => (m, some .indexError)
      | d0 :: ds =>
        if ¬ ((d0 :: ds).all (fun x => x == d0)) then (m, some .valueError)
        else
          match pySlice m.strike top bot with
          | [] => (m, some .indexError)
          | s0 :: ss =>
            if ¬ ((s0 :: ss).all (fun x => x == s0)) then (m, some .valueError)
            else
              let tsl := pySlice m.thickn top bot
              let thickn := tsl.sum
              let weights := tsl.map (· / thickn)
              match npMul (pySlice m.vp top bot) weights with
              | .error e => (m, some e)
              | .ok vpw =>
                match npMul (pySlice m.vs top bot) weights with
                | .error e => (m, some e)
                | .ok vsw =>
                  match npMul (pySlice m.rho top bot) weights with
                  | .error e => (m, some e)
                  | .ok rhow =>
                    let lv : MAttr → Option ℚ := fun a =>
                      match a with
                      | .thickn => some thickn
                      | .vp => some vpw.sum
                      | .vs => some vsw.sum
                      | .rho => some rhow.sum
                      | _ => none
                    match combineLoop top bot lv m USERATTS with
                    | (m1, some e) => (m1, some e)
                    | (m1, none) =>
                      Model.update degrad { m1 with nlay := m1.nlay - (bottom - top) } none

/-- State of a `prs.Geometry` instance. -/
structure GeomState where
  geom : List (ℚ × ℚ)
  baz : List ℚ
  slow : List ℚ
  ntr : Nat
  dx : List ℚ
  dy : List ℚ
  fbaz : List ℚ
  fslow : List ℚ
  fdx : List ℚ
  fdy : List ℚ
  deriving DecidableEq, Repr

/-- The sample collection built by `Geometry.__init__`: the full outer
product when the backazimuth and slowness arrays differ in length (outer
loop over slownesses, inner over backazimuths), the elementwise pairing
when they agree. -/
def Geometry.geomOf (baz slow : List ℚ) : List (ℚ × ℚ) :=
  if baz.length ≠ slow.length then
    slow.flatMap (fun ss => baz.map (fun bb => (bb, ss)))
  else baz.zip slow

/-- Broadcasting of an offset array in `Geometry.__init__`: an array whose
length differs from the trace count is replaced by `ntr` copies of its
first element; reading the first element of an empty array raises. -/
def Geometry.offsetOf (ntr : Nat) (d : List ℚ) : Except PyErr (List ℚ) :=
  if d.length ≠ ntr then
    match d with
    | [] => .error .indexError
    | d0 :: _ => .ok (List.replicate ntr d0)
  else .ok d

/-- `Geometry.__init__` on array arguments: build the sample collection,
unzip it (unpacking `zip(*geom)` of an empty collection raises), broadcast
the offsets, and build the fixed-capacity mirror (backazimuth scaled by the
degree-to-radian factor, slowness by `1e-3`; `np.zeros(maxtr - ntr)` raises
when the trace count exceeds the capacity). -/
def Geometry.init (degrad : ℚ) (baz slow dx dy : List ℚ) (maxtr : Nat) :
    Except PyErr GeomState :=
  let geom := Geometry.geomOf baz slow
  match geom with
  | [] => .error .valueError
  | _ =>
    let baz' := geom.map Prod.fst
    let slow' := geom.map Prod.snd
    let ntr := baz'.length
    match Geometry.offsetOf ntr dx with
    | .error e => .error e
    | .ok dx' =>
      match Geometry.offsetOf ntr dy with
      | .error e => .error e
      | .ok dy' =>
        if maxtr < ntr then .error .valueError
        else
          let tail := List.replicate (maxtr - ntr) (0 : ℚ)
          .ok { geom := geom
                baz := baz'
                slow := slow'
                ntr := ntr
                dx := dx'
                dy := dy'
                fbaz := (baz' ++ tail).map (· * degrad)
                fslow := (slow' ++ tail).map (· * (1 / 1000))
                fdx := dx' ++ tail
                fdy := dy' ++ tail }

/-- One synthetic trace as stored by `read_traces`: the obspy channel name
(`'BH'` plus the component code), the originating ray parameters, and the
waveform samples.  Wall-clock start times and the redundant time axis are
bookkeeping omitted from the embedding. -/
structure RTrace where
  channel : List Char
  baz : ℚ
  slow : ℚ
  data : List ℚ
  deriving DecidableEq, Repr

/-- Column-major (`order='F'`) flattening of the cropped solver output for
one component: `traces[c, :npts, :ntr].reshape(npts*ntr, order='F')`. -/
def flatF (traces : Nat → Nat → Nat → ℚ) (c npts ntr : Nat) : List ℚ :=
  (List.range ntr).flatMap (fun tr => (List.range npts).map (fun s => traces c s tr))

/-- The `itr` dataframe column: `npts` copies of each trace index. -/
def itrCol (npts ntr : Nat) : List Nat :=
  (List.range ntr).flatMap (fun tr => List.replicate npts tr)

/-- The pandas row selection `df[df.itr == n].col.values`. -/
def dfSelect (col : List ℚ) (itr : List Nat) (n : Nat) : List ℚ :=
  (col.zip itr).filterMap (fun p => if p.2 = n then some p.1 else none)

/-- The component naming scheme per rotation mode. -/
def componentsOfRot (rot : Nat) : Option (Char × Char × Char) :=
  if rot = 0 then some ('N', 'E', 'Z')
  else if rot = 1 then some ('R', 'T', 'Z')
  else if rot = 2 then some ('P', 'V', 'H')
  else none

/-- `prs.read_traces`: de-multiplex the flattened solver output into one
stream of three component traces per trace index.  An invalid rotation mode
raises; `np.max` over the empty `itr` column raises when there are no valid
samples; indexing `geom[itr]` raises when the geometry has fewer entries
than traces. -/
def read_traces (traces : Nat → Nat → Nat → ℚ) (geom : List (ℚ × ℚ)) (dt : ℚ)
    (rot : Nat) (shift : ℚ) (npts ntr : Nat) :
    Except PyErr (List (List RTrace)) :=
  let trace1 := flatF traces 0 npts ntr
  let trace2 := flatF traces 1 npts ntr
  let trace3 := flatF traces 2 npts ntr
  let itr := itrCol npts ntr
  match componentsOfRot rot with
  | none => .error .valueError
  | some cs =>
    if npts * ntr = 0 then .error .valueError
    else if geom.length < ntr then .error .indexError
    else
      .ok ((List.range ntr).map (fun n =>
        let g := geom.getD n (0, 0)
        [ { channel := ['B', 'H', cs.1], baz := g.1, slow := g.2,
            data := dfSelect trace1 itr n }
        , { channel := ['B', 'H', cs.2.1], baz := g.1, slow := g.2,
            data := dfSelect trace2 itr n }
        , { channel := ['B', 'H', cs.2.2], baz := g.1, slow := g.2,
            data := dfSelect trace3 itr n } ]))

/-- obspy's `stream.select(component=c)[0]`: the first trace whose channel
code ends in the requested component letter (`none` models the
`IndexError` on an empty selection). -/
def streamSelect (st : List RTrace) (comp : Char) : Option RTrace :=
  st.find? (fun t => t.channel.getLast? == some comp)

/-- Receiver functions for a single stream, following
`StreamList.calculate_rfs`' loop body.  The spectral primitives of the
external numeric library are abstract parameters: `fft` maps a waveform to
its spectrum (an arbitrary type `α`), `specDiv` and `specNeg` are the
spectral division and negation, `ifft` the inverse transform, `real` the
real part (back to samples) and `fftshift` the zero-lag recentering.
Unknown wave types raise. -/
def calcRF1 {α : Type} (fft : List ℚ → α) (specDiv : α → α → α) (specNeg : α → α)
    (ifft : α → α) (real : α → List ℚ) (fftshift : List ℚ → List ℚ)
    (wvtype : String) (cmpts : Char × Char × Char) (stream : List RTrace) :
    Except PyErr (RTrace × RTrace) :=
  match streamSelect stream cmpts.1, streamSelect stream cmpts.2.1,
      streamSelect stream cmpts.2.2 with
  | some rtr, some ttr, some ztr =>
    let ft_rfr := fft rtr.data
    let ft_rft := fft ttr.data
    let ft_ztr := fft ztr.data
    if wvtype = "P" then
      .ok ({ rtr with channel := ['R', 'F', cmpts.1],
                      data := fftshift (real (ifft (specDiv ft_rfr ft_ztr))) },
           { ttr with channel := ['R', 'F', cmpts.2.1],
                      data := fftshift (real (ifft (specDiv ft_rft ft_ztr))) })
    else if wvtype = "SV" then
      .ok ({ rtr with channel := ['R', 'F', cmpts.1],
                      data := fftshift (real (ifft (specDiv (specNeg ft_ztr) ft_rfr))) },
           { ttr with channel := ['R', 'F', cmpts.2.1],
                      data := List.replicate ttr.data.length 0 })
    else if wvtype = "SH" then
      .ok ({ rtr with channel := ['R', 'F', cmpts.1],
                      data := List.replicate rtr.data.length 0 },
           { ttr with channel := ['R', 'F', cmpts.2.1],
                      data := fftshift (real (ifft (specDiv (specNeg ft_ztr) ft_rft))) })
    else .error .valueError
  | _, _, _ => .error .indexError

/-- `StreamList.calculate_rfs`: refuse the geographic rotation mode and any
unknown mode, pick the component triple (`R,T,Z` for mode 1, `V,H,P` for
mode 2), and compute the receiver-function pair of every stream. -/
def calculate_rfs {α : Type} (fft : List ℚ → α) (specDiv : α → α → α)
    (specNeg : α → α) (ifft : α → α) (real : α → List ℚ)
    (fftshift : List ℚ → List ℚ) (rot : Nat) (wvtype : String)
    (streams : List (List RTrace)) : Except PyErr (List (RTrace × RTrace)) :=
  if rot = 0 then .error .valueError
  else
    match (if rot = 1 then some ('R', 'T', 'Z')
           else if rot = 2 then some ('V', 'H', 'P') else none : Option (Char × Char × Char)) with
    | none => .error .valueError
    | some cmpts =>
      streams.mapM (calcRF1 fft specDiv specNeg ifft real fftshift wvtype cmpts)

/-- The module-level filter-coefficient cache: association list from
`(order, corners)` keys to designed coefficients (an abstract type `C`). -/
def cacheFind {C : Type} (cache : List ((Nat × ℚ × ℚ) × C)) (k : Nat × ℚ × ℚ) :
    Option C :=
  match cache.find? (fun p => decide (p.1 = k)) with
  | some p => some p.2
  | none => none

/-- `prs._get_cached_bandpass_coefs`: look the key up, designing (via the
abstract `signal.butter`) and inserting only on a miss.  Also reports
whether the design function was invoked, the observable used by the
call-count instrumentation. -/
def get_cached_bandpass_coefs {C : Type} (butter : Nat → ℚ × ℚ → C)
    (cache : List ((Nat × ℚ × ℚ) × C)) (order : Nat) (corners : ℚ × ℚ) :
    C × List ((Nat × ℚ × ℚ) × C) × Bool :=
  let ck : Nat × ℚ × ℚ := (order, corners)
  match cacheFind cache ck with
  | some c => (c, cache, false)
  | none =>
    let c := butter order corners
    (c, cache ++ [(ck, c)], true)

/-- A sequence of cache lookups from a given starting cache: the returned
coefficients in order, the final cache, and the log of keys for which the
design function was actually invoked. -/
def runCachedCalls {C : Type} (butter : Nat → ℚ × ℚ → C) :
    List ((Nat × ℚ × ℚ) × C) → List (Nat × ℚ × ℚ) →
    List C × List ((Nat × ℚ × ℚ) × C) × List (Nat × ℚ × ℚ)
  | cache, [] => ([], cache, [])
  | cache, k :: ks =>
    let r := get_cached_bandpass_coefs butter cache k.1 k.2
    let rest := runCachedCalls butter r.2.1 ks
    (r.1 :: rest.1, rest.2.1, (if r.2.2 then [k] else []) ++ rest.2.2)

/-- `np.mean`. -/
def npMean (l : List ℚ) : ℚ := l.sum / l.length

/-- The `_bandpass` closure of `filtered_rf_array`, with the designed
coefficients already fetched: remove the mean, run the abstract
`signal.lfilter` forward, then over the reversed first pass, and reverse
back (zero-phase application). -/
def bandpass {C : Type} (lfilter : C → List ℚ → List ℚ) (coefs : C)
    (arr : List ℚ) : List ℚ :=
  let arr1 := arr.map (fun x => x - npMean arr)
  let firstpass := lfilter coefs arr1
  (lfilter coefs firstpass.reverse).reverse

/-- The per-trace per-component crop of the solver output used by
`filtered_rf_array`: `data[n][c][s] = sspread_arr[c, s, n]` after slicing
away the unused overhang and transposing to trace-major order. -/
def cropTrace (sspread : Nat → Nat → Nat → ℚ) (npts c n : Nat) : List ℚ :=
  (List.range npts).map (fun s => sspread c s n)

/-- `prs.filtered_rf_array`: the stripped-down batch pipeline.  For each
trace the three cropped component waveforms are transformed, the spectral
divisions of the second and third components by the first (`V/P` and `H/P`
in the wave-aligned convention) are inverted, recentered and bandpass
filtered into the two output rows.  The filter coefficients come from the
process-wide cache with the fixed key `(2, (2*dt*fmin, 2*dt*fmax))`; as the
key is identical for every trace the lookup result is the same cached pair
each time, so it is fetched once here. -/
def filtered_rf_array {α C : Type} (fft : List ℚ → α) (specDiv : α → α → α)
    (ifft : α → α) (real : α → List ℚ) (fftshift : List ℚ → List ℚ)
    (lfilter : C → List ℚ → List ℚ) (butter : Nat → ℚ × ℚ → C)
    (cache0 : List ((Nat × ℚ × ℚ) × C)) (sspread : Nat → Nat → Nat → ℚ)
    (ntr npts : Nat) (dt fmin fmax : ℚ) : List (List ℚ × List ℚ) :=
  let order := 2
  let coefs := (get_cached_bandpass_coefs butter cache0 order
    (2 * dt * fmin, 2 * dt * fmax)).1
  (List.range ntr).map (fun n =>
    let ft_ztr := fft (cropTrace sspread npts 0 n)
    let ft_rfr := fft (cropTrace sspread npts 1 n)
    let ft_rft := fft (cropTrace sspread npts 2 n)
    (bandpass lfilter coefs (fftshift (real (ifft (specDiv ft_rfr ft_ztr)))),
     bandpass lfilter coefs (fftshift (real (ifft (specDiv ft_rft ft_ztr))))))

instance {ε α : Type} [DecidableEq ε] [DecidableEq α] : DecidableEq (Except ε α) := fun a b =>
  match a, b with
  | .error e, .error f =>
    if h : e = f then isTrue (by rw [h]) else isFalse (fun hh => h (by injection hh))
  | .ok x, .ok y =>
    if h : x = y then isTrue (by rw [h]) else isFalse (fun hh => h (by injection hh))
  | .error _, .ok _ => isFalse (fun hh => Except.noConfusion hh)
  | .ok _, .error _ => isFalse (fun hh => Except.noConfusion hh)

/-- A successful `Geometry.__init__` records the computed sample collection,
its length as the trace count, and the broadcast offsets. -/
theorem Geometry.init_ok (degrad : ℚ) (baz slow dx dy : List ℚ) (maxtr : Nat)
    (g : GeomState) (h : Geometry.init degrad baz slow dx dy maxtr = .ok g) :
    g.geom = Geometry.geomOf baz slow ∧
    g.ntr = (Geometry.geomOf baz slow).length ∧
    Geometry.offsetOf g.ntr dx = .ok g.dx ∧
    Geometry.offsetOf g.ntr dy = .ok g.dy := by
  simp only [Geometry.init] at h
  split at h
  · exact Except.noConfusion h
  · split at h
    · exact Except.noConfusion h
    · rename_i dx' hdx
      split at h
      · exact Except.noConfusion h
      · rename_i dy' hdy
        split at h
        · exact Except.noConfusion h
        · injection h with h
          subst h
          refine ⟨rfl, by simp, ?_, ?_⟩
          · simpa using hdx
          · simpa using hdy

/-- Length of the outer-product sample grid. -/
theorem geomOf_length_of_ne (baz slow : List ℚ) (h : baz.length ≠ slow.length) :
    (Geometry.geomOf baz slow).length = baz.length * slow.length := by
  unfold Geometry.geomOf
  rw [if_pos h]
  clear h
  induction slow with
  | nil => simp
  | cons s ss ih => simp_all [Nat.mul_succ, Nat.add_comm]

/-- C4.  For every successful `Geometry` construction: with backazimuth and
slowness arrays of unequal length the sample collection is the full outer
product — it has `len(baz) * len(slow)` entries and contains every
(backazimuth, slowness) combination — while with arrays of equal length it
is the elementwise pairing. -/
theorem C4_geometry_pairing (degrad : ℚ) (baz slow dx dy : List ℚ) (maxtr : Nat)
    (g : GeomState) (h : Geometry.init degrad baz slow dx dy maxtr = .ok g) :
    (baz.length ≠ slow.length →
      g.geom.length = baz.length * slow.length ∧
      ∀ b ∈ baz, ∀ s ∈ slow, (b, s) ∈ g.geom) ∧
    (baz.length = slow.length → g.geom = baz.zip slow) := by
  obtain ⟨hg, -, -, -⟩ := Geometry.init_ok degrad baz slow dx dy maxtr g h
  rw [hg]
  constructor
  · intro hne
    refine ⟨geomOf_length_of_ne baz slow hne, ?_⟩
    intro b hb s hs
    unfold Geometry.geomOf
    rw [if_pos hne]
    simp only [List.mem_flatMap, List.mem_map]
    exact ⟨s, hs, b, hb, rfl⟩
  · intro heq
    unfold Geometry.geomOf
    rw [if_neg (by simp [heq])]

/-- A `GeomState` placeholder used by concrete-sample extractors. -/
def emptyGeom : GeomState :=
  { geom := [], baz := [], slow := [], ntr := 0, dx := [], dy := []
    fbaz := [], fslow := [], fdx := [], fdy := [] }

/-- Concrete sample for the C4 witness: the geometry built from three
backazimuths and two slownesses with capacity 6. -/
def C4sample : GeomState :=
  match Geometry.init 1 [1, 2, 3] [4, 5] [0] [0] 6 with
  | .ok g => g
  | .error _ => emptyGeom

/-- Witness for C4: three backazimuths and two slownesses give six samples,
containing e.g. the combination of the first backazimuth with the second
slowness. -/
theorem C4_witness :
    C4sample.geom.length = 3 * 2 ∧ ((1 : ℚ), (5 : ℚ)) ∈ C4sample.geom := by
  have h := C4_geometry_pairing 1 [1, 2, 3] [4, 5] [0] [0] 6 C4sample rfl
  exact ⟨(h.1 (by decide)).1, (h.1 (by decide)).2 1 (by simp) 5 (by simp)⟩

/-- C10 (amended).  In every successful `Geometry` construction an offset
array whose length differs from the trace count — not only length 1 — is
silently replaced by `ntr` copies of its own first element; a construction
whose offset arrays are non-empty never fails because of an offset length
mismatch (only an *empty* mismatched offset array raises). -/
theorem C10_offset_broadcast (degrad : ℚ) (baz slow dx dy : List ℚ) (maxtr : Nat) :
    (∀ g : GeomState, Geometry.init degrad baz slow dx dy maxtr = .ok g →
      (dx.length ≠ g.ntr → g.dx = List.replicate g.ntr (dx.headD 0)) ∧
      (dy.length ≠ g.ntr → g.dy = List.replicate g.ntr (dy.headD 0))) ∧
    (dx ≠ [] → dy ≠ [] → Geometry.geomOf baz slow ≠ [] →
      (Geometry.geomOf baz slow).length ≤ maxtr →
      (Geometry.init degrad baz slow dx dy maxtr).isOk = true) := by
  constructor
  · intro g h
    obtain ⟨-, -, hdx, hdy⟩ := Geometry.init_ok degrad baz slow dx dy maxtr g h
    constructor
    · intro hne
      unfold Geometry.offsetOf at hdx
      rw [if_pos hne] at hdx
      match dx, hdx with
      | d0 :: _, hdx => injection hdx with hdx; rw [← hdx]; rfl
    · intro hne
      unfold Geometry.offsetOf at hdy
      rw [if_pos hne] at hdy
      match dy, hdy with
      | d0 :: _, hdy => injection hdy with hdy; rw [← hdy]; rfl
  · intro hdx hdy hne hcap
    obtain ⟨p, ps, hg⟩ := List.exists_cons_of_ne_nil hne
    obtain ⟨x0, xs, hx⟩ := List.exists_cons_of_ne_nil hdx
    obtain ⟨y0, ys, hy⟩ := List.exists_cons_of_ne_nil hdy
    rw [hg] at hcap
    simp only [Geometry.init, hg, List.length_map]
    have hofs : ∀ (d0 : ℚ) (ds : List ℚ) (n : Nat),
        ∃ l, Geometry.offsetOf n (d0 :: ds) = .ok l := by
      intro d0 ds n
      unfold Geometry.offsetOf
      split
      · exact ⟨_, rfl⟩
      · exact ⟨_, rfl⟩
    obtain ⟨dx', hdx'⟩ := hofs x0 xs (p :: ps).length
    obtain ⟨dy', hdy'⟩ := hofs y0 ys (p :: ps).length
    simp only [hx, hy, hdx', hdy']
    rw [if_neg (Nat.not_lt.mpr hcap)]
    rfl

/-- Counterexample for C10 as stated: an *empty* offset array also has a
length different from the trace count, but instead of being broadcast it
makes the construction raise an `IndexError` when its first element is
read. -/
theorem C10_counterexample :
    Geometry.init 1 [10] [6/100] [] [0] 500 = .error .indexError := rfl

/-- Witness for C10 (amended): a length-2 north-offset array against 6
samples is broadcast from its first element, discarding the second. -/
def C10sample : GeomState :=
  match Geometry.init 1 [1, 2, 3] [4, 5] [7, 9] [0] 6 with
  | .ok g => g
  | .error _ => emptyGeom

/-- Witness for C10: the amended broadcast behaviour at the concrete
length-2 offset array `[7, 9]` for 6 samples. -/
theorem C10_witness :
    C10sample.dx = List.replicate C10sample.ntr ((7 : ℚ)) := by
  have h := (C10_offset_broadcast 1 [1, 2, 3] [4, 5] [7, 9] [0] 6).1 C10sample rfl
  exact h.1 (by decide)

/-- A cache association list is consistent with the design function when
every stored entry holds the designed coefficients for its key. -/
def CacheGood {C : Type} (butter : Nat → ℚ × ℚ → C)
    (cache : List ((Nat × ℚ × ℚ) × C)) : Prop :=
  ∀ p ∈ cache, p.2 = butter p.1.1 p.1.2

/-- A hit in a consistent cache returns the designed coefficients. -/
theorem cacheFind_good {C : Type} (butter : Nat → ℚ × ℚ → C)
    (cache : List ((Nat × ℚ × ℚ) × C)) (hg : CacheGood butter cache)
    (k : Nat × ℚ × ℚ) (c : C) (h : cacheFind cache k = some c) :
    c = butter k.1 k.2 := by
  unfold cacheFind at h
  rcases hf : cache.find? (fun p => decide (p.1 = k)) with _ | p
  · rw [hf] at h
    exact Option.noConfusion h
  · rw [hf] at h
    injection h with h
    have hmem := List.mem_of_find?_eq_some hf
    have hkey := List.find?_some hf
    simp only [decide_eq_true_eq] at hkey
    rw [← h, hg p hmem, hkey]

/-- Lookup distributes over cache extension on a miss. -/
theorem cacheFind_append {C : Type} (l1 l2 : List ((Nat × ℚ × ℚ) × C))
    (k : Nat × ℚ × ℚ) (h : cacheFind l1 k = none) :
    cacheFind (l1 ++ l2) k = cacheFind l2 k := by
  unfold cacheFind at h ⊢
  rw [List.find?_append]
  rcases hf : l1.find? (fun p => decide (p.1 = k)) with _ | p
  · rw [hf]
    rcases hf2 : l2.find? (fun p => decide (p.1 = k)) with _ | q <;> simp [Option.or]
  · rw [hf] at h
    exact Option.noConfusion h

/-- Lookup of an existing entry is unaffected by cache extension: no entry
is ever evicted or shadowed. -/
theorem cacheFind_append_of_some {C : Type} (l1 l2 : List ((Nat × ℚ × ℚ) × C))
    (k : Nat × ℚ × ℚ) (c : C) (h : cacheFind l1 k = some c) :
    cacheFind (l1 ++ l2) k = some c := by
  unfold cacheFind at h ⊢
  rw [List.find?_append]
  rcases hf : l1.find? (fun p => decide (p.1 = k)) with _ | p
  · rw [hf] at h
    exact Option.noConfusion h
  · rw [hf] at h
    rw [hf]
    exact h

/-- Lookup in a freshly inserted singleton entry. -/
theorem cacheFind_singleton {C : Type} (k : Nat × ℚ × ℚ) (c : C) :
    cacheFind [(k, c)] k = some c := by
  unfold cacheFind
  simp [List.find?]

/-- Responses of a call sequence over a consistent cache are exactly the
designed coefficients of the requested keys. -/
theorem runCachedCalls_resps {C : Type} (butter : Nat → ℚ × ℚ → C)
    (reqs : List (Nat × ℚ × ℚ)) :
    ∀ cache, CacheGood butter cache →
      (runCachedCalls butter cache reqs).1
        = reqs.map (fun k => butter k.1 k.2) := by
  induction reqs with
  | nil => intro cache _; rfl
  | cons k ks ih =>
    intro cache hg
    unfold runCachedCalls get_cached_bandpass_coefs
    rcases hc : cacheFind cache (k.1, k.2) with _ | c
    · simp only [hc]
      have hg' : CacheGood butter (cache ++ [((k.1, k.2), butter k.1 k.2)]) := by
        intro p hp
        rcases List.mem_append.mp hp with h | h
        · exact hg p h
        · simp only [List.mem_singleton] at h
          subst h
          rfl
      simp only [List.map_cons]
      rw [ih _ hg']
    · simp only [hc]
      rw [cacheFind_good butter cache hg (k.1, k.2) c hc]
      simp only [List.map_cons]
      rw [ih _ hg]

/-- The design log of a call sequence: no duplicate keys, and every logged
key was absent from the starting cache. -/
theorem runCachedCalls_log {C : Type} (butter : Nat → ℚ × ℚ → C)
    (reqs : List (Nat × ℚ × ℚ)) :
    ∀ cache,
      (runCachedCalls butter cache reqs).2.2.Nodup ∧
      ∀ k ∈ (runCachedCalls butter cache reqs).2.2, cacheFind cache k = none := by
  induction reqs with
  | nil => intro cache; exact ⟨List.nodup_nil, by intro k hk; exact absurd hk (List.not_mem_nil k)⟩
  | cons k ks ih =>
    intro cache
    unfold runCachedCalls get_cached_bandpass_coefs
    rcases hc : cacheFind cache (k.1, k.2) with _ | c
    · simp only [hc]
      obtain ⟨ihn, iha⟩ := ih (cache ++ [((k.1, k.2), butter k.1 k.2)])
      have hkk : cacheFind (cache ++ [((k.1, k.2), butter k.1 k.2)]) (k.1, k.2)
          = some (butter k.1 k.2) := by
        rw [cacheFind_append _ _ _ hc]
        exact cacheFind_singleton _ _
      constructor
      · refine List.Nodup.cons ?_ ihn
        intro hmem
        have := iha k (by simpa using hmem)
        rw [show ((k.1, k.2) : Nat × ℚ × ℚ) = k from rfl] at hkk
        rw [this] at hkk
        exact Option.noConfusion hkk
      · intro k' hk'
        rcases List.mem_cons.mp (by simpa using hk') with h | h
        · subst h
          exact hc
        · have h2 := iha k' h
          rcases hck : cacheFind cache k' with _ | c'
          · rfl
          · have := cacheFind_append_of_some cache
              [((k.1, k.2), butter k.1 k.2)] k' c' hck
            rw [this] at h2
            exact Option.noConfusion h2
    · simp only [hc]
      obtain ⟨ihn, iha⟩ := ih cache
      exact ⟨by simpa using ihn, by intro k' hk'; exact iha k' (by simpa using hk')⟩

/-- Entries present before a call sequence are still found, unchanged,
after it. -/
theorem runCachedCalls_mono {C : Type} (butter : Nat → ℚ × ℚ → C)
    (reqs : List (Nat × ℚ × ℚ)) :
    ∀ cache k c, cacheFind cache k = some c →
      cacheFind (runCachedCalls butter cache reqs).2.1 k = some c := by
  induction reqs with
  | nil => intro cache k c h; exact h
  | cons q qs ih =>
    intro cache k c h
    unfold runCachedCalls get_cached_bandpass_coefs
    rcases hc : cacheFind cache (q.1, q.2) with _ | c0
    · simp only [hc]
      exact ih _ k c (cacheFind_append_of_some _ _ _ _ h)
    · simp only [hc]
      exact ih _ k c h

/-- C9.  Over any sequence of filter-coefficient lookups from the initially
empty process-wide cache: every call returns exactly the designed
coefficients of its key, so two calls with identical `(order, corners)`
return the identical pair; the design function is invoked at most once per
distinct key (the invocation log has no duplicates); and a cached entry,
once present, is returned unchanged by every later lookup (no eviction). -/
theorem C9_cache_exactly_once {C : Type} (butter : Nat → ℚ × ℚ → C)
    (reqs : List (Nat × ℚ × ℚ)) :
    (runCachedCalls butter [] reqs).1 = reqs.map (fun k => butter k.1 k.2) ∧
    (∀ i j : Nat, reqs[i]? = reqs[j]? →
      (runCachedCalls butter [] reqs).1[i]? = (runCachedCalls butter [] reqs).1[j]?) ∧
    (runCachedCalls butter [] reqs).2.2.Nodup ∧
    (∀ cache k c, cacheFind cache k = some c →
      cacheFind (runCachedCalls butter cache reqs).2.1 k = some c) := by
  have hresps := runCachedCalls_resps butter reqs []
    (by intro p hp; exact absurd hp (List.not_mem_nil p))
  refine ⟨hresps, ?_, (runCachedCalls_log butter reqs []).1, runCachedCalls_mono butter reqs⟩
  intro i j hij
  rw [hresps, List.getElem?_map, List.getElem?_map, hij]

/-- Witness for C9: two identical keys and one fresh key; the repeated key
returns the identical coefficients. -/
theorem C9_witness :
    (runCachedCalls (fun o _ => o) [] [(2, 0, 0), (2, 0, 0), (3, 0, 0)]).1[0]?
      = (runCachedCalls (fun o _ => o) [] [(2, 0, 0), (2, 0, 0), (3, 0, 0)]).1[1]? :=
  (C9_cache_exactly_once (fun o _ => o) [(2, 0, 0), (2, 0, 0), (3, 0, 0)]).2.1 0 1 rfl

/-- The mirror of a model state is in sync when regenerating it is the
identity: `_set_fattributes` succeeds and changes nothing. -/
def mirrorSynced (degrad : ℚ) (m : ModelState) : Prop :=
  Model.set_fattributes degrad m = .ok m

instance (degrad : ℚ) (m : ModelState) : Decidable (mirrorSynced degrad m) :=
  inferInstanceAs (Decidable (Model.set_fattributes degrad m = .ok m))

/-- Regeneration is idempotent: any state produced by `_set_fattributes`
has its mirror in sync. -/
theorem set_fattributes_synced (degrad : ℚ) (m m' : ModelState)
    (h : Model.set_fattributes degrad m = .ok m') : mirrorSynced degrad m' := by
  unfold Model.set_fattributes at h
  split at h
  · exact Except.noConfusion h
  · rename_i hle
    injection h with h
    subst h
    unfold mirrorSynced Model.set_fattributes
    rw [if_neg hle]

/-- Any state returned normally by `Model.update` has its mirror in sync. -/
theorem update_synced (degrad : ℚ) (m : ModelState) (fix : Option String)
    (m' : ModelState) (h : Model.update degrad m fix = (m', none)) :
    mirrorSynced degrad m' := by
  simp only [Model.update] at h
  split at h
  · -- fix = none: recompute vpvs, then regenerate
    split at h
    · simp at h
    · split at h
      · simp at h
      · rename_i m2 hset2
        injection h with h1 h2
        subst h1
        exact set_fattributes_synced degrad _ _ hset2
  · -- fix = some s
    split at h
    · -- s = 'vp'
      split at h
      · simp at h
      · split at h
        · simp at h
        · rename_i m2 hset2
          injection h with h1 h2
          subst h1
          exact set_fattributes_synced degrad _ _ hset2
    · split at h
      · -- s = 'vs'
        split at h
        · simp at h
        · split at h
          · simp at h
          · rename_i m2 hset2
            injection h with h1 h2
            subst h1
            exact set_fattributes_synced degrad _ _ hset2
      · split at h
        · -- s = '' behaves like None
          split at h
          · simp at h
          · split at h
            · simp at h
            · rename_i m2 hset2
              injection h with h1 h2
              subst h1
              exact set_fattributes_synced degrad _ _ hset2
        · simp at h

/-- A normal return of `split_layer` has its mirror in sync (it ends in
`update`). -/
theorem split_layer_synced (degrad : ℚ) (m : ModelState) (n : Nat)
    (m' : ModelState) (h : Model.split_layer degrad m n = (m', none)) :
    mirrorSynced degrad m' := by
  unfold Model.split_layer at h
  split at h
  · simp at h
  · split at h
    · simp at h
    · split at h
      · simp at h
      · exact update_synced degrad _ none m' h

/-- A normal return of `remove_layer` has its mirror in sync. -/
theorem remove_layer_synced (degrad : ℚ) (m : ModelState) (n : Nat)
    (m' : ModelState) (h : Model.remove_layer degrad m n = (m', none)) :
    mirrorSynced degrad m' := by
  unfold Model.remove_layer at h
  split at h
  · simp at h
  · exact update_synced degrad _ none m' h

/-- A normal return of `combine_layers` has its mirror in sync. -/
theorem combine_layers_synced (degrad : ℚ) (m : ModelState) (top bottom : Nat)
    (m' : ModelState) (h : Model.combine_layers degrad m top bottom = (m', none)) :
    mirrorSynced degrad m' := by
  simp only [Model.combine_layers] at h
  repeat' split at h
  all_goals
    first
      | exact update_synced degrad _ none m' h
      | simp at h

/-- A normal return of the applied directive body has its mirror in sync
(it ends in `update`). -/
theorem applyDirective_synced (degrad : ℚ) (m : ModelState) (attr : MAttr)
    (lay : Nat) (sgn : Char) (inc : ℚ) (fix : Option String) (m' : ModelState)
    (h : applyDirective degrad m attr lay sgn inc fix = (m', none)) :
    mirrorSynced degrad m' := by
  simp only [applyDirective] at h
  repeat' split at h
  all_goals
    first
      | exact update_synced degrad _ _ m' h
      | simp at h

/-- A normal return of one applied `change` directive has its mirror in
sync. -/
theorem changeOne_synced (degrad : ℚ) (m : ModelState) (cmd : List Char)
    (m' : ModelState) (h : Model.changeOne degrad m cmd = (m', none)) :
    mirrorSynced degrad m' := by
  simp only [Model.changeOne] at h
  repeat' split at h
  all_goals
    first
      | exact applyDirective_synced degrad _ _ _ _ _ _ m' h
      | simp at h

/-- `changeList` keeps the mirror in sync: on a normal return the result is
synced provided the input was synced or at least one directive was
applied. -/
theorem changeList_synced (degrad : ℚ) (cs : List (List Char)) :
    ∀ m m', Model.changeList degrad m cs = (m', none) →
      (mirrorSynced degrad m ∨ ∃ c ∈ cs, c ≠ []) → mirrorSynced degrad m' := by
  induction cs with
  | nil =>
    intro m m' h hside
    unfold Model.changeList at h
    injection h with h1 h2
    subst h1
    rcases hside with hs | ⟨c, hc, _⟩
    · exact hs
    · exact absurd hc (List.not_mem_nil c)
  | cons c cs ih =>
    intro m m' h hside
    unfold Model.changeList at h
    split at h
    · rename_i hc
      refine ih m m' h ?_
      rcases hside with hs | ⟨c', hc', hne⟩
      · exact Or.inl hs
      · rcases List.mem_cons.mp hc' with h1 | h1
        · subst h1
          exact absurd hc hne
        · exact Or.inr ⟨c', h1, hne⟩
    · split at h
      · rename_i m1 hone
        exact ih _ m' h (Or.inl (changeOne_synced degrad m c m1 hone))
      · rename_i r hne2
        -- the fall-through arm returns the error pair unchanged; a normal
        -- return is impossible here
        exact absurd h (hne2 m')

/-- C3 (amended).  After `update`, `split_layer`, `remove_layer` and
`combine_layers` return normally the fixed-capacity mirror arrays always
equal the deterministic regeneration from the current user attributes, and
the same holds for `change` whenever at least one directive is applied; a
`change` whose command string contains no non-empty directive returns the
model — and any stale mirror it carries — untouched. -/
theorem C3_mirror_sync (degrad : ℚ) :
    (∀ m fix m', Model.update degrad m fix = (m', none) → mirrorSynced degrad m') ∧
    (∀ m n m', Model.split_layer degrad m n = (m', none) → mirrorSynced degrad m') ∧
    (∀ m n m', Model.remove_layer degrad m n = (m', none) → mirrorSynced degrad m') ∧
    (∀ m top bottom m', Model.combine_layers degrad m top bottom = (m', none) →
      mirrorSynced degrad m') ∧
    (∀ m cmds m', Model.change degrad m cmds = (m', none) →
      (∃ c ∈ splitOnChar ';' cmds.data, c ≠ []) → mirrorSynced degrad m') :=
  ⟨fun m fix m' h => update_synced degrad m fix m' h,
   fun m n m' h => split_layer_synced degrad m n m' h,
   fun m n m' h => remove_layer_synced degrad m n m' h,
   fun m top bottom m' h => combine_layers_synced degrad m top bottom m' h,
   fun m cmds m' h hne =>
     changeList_synced degrad (splitOnChar ';' cmds.data) m m' h (Or.inr hne)⟩

/-- A model whose user attributes were assigned directly (the workflow the
`update` docstring describes) without a subsequent `update`: the mirror
arrays are stale. -/
def staleModel : ModelState :=
  { nlay := 1
    thickn := [1000]
    rho := [2800]
    vp := [6000]
    vs := [3000]
    vpvs := [2]
    flag := [1]
    ani := [0]
    trend := [0]
    plunge := [0]
    strike := [0]
    dip := [0]
    maxlay := 2
    fthickn := []
    frho := []
    fvp := []
    fvs := []
    fflag := []
    fani := []
    ftrend := []
    fplunge := []
    fstrike := []
    fdip := [] }

/-- Counterexample for C3 as stated: `change` with a command string holding
no directive returns normally without ever calling `update`, so a stale
mirror remains observable after a public mutator returned normally. -/
theorem C3_counterexample :
    Model.change 1 staleModel "" = (staleModel, none) ∧
    ¬ mirrorSynced 1 staleModel := by
  refine ⟨rfl, ?_⟩
  intro h
  unfold mirrorSynced Model.set_fattributes at h
  rw [if_neg (by decide)] at h
  injection h with h
  have h2 := congrArg ModelState.fthickn h
  simp [staleModel, fpad] at h2

/-- Witness for C3 (amended): updating the stale model regenerates its
mirror; the result of `update` is in sync. -/
theorem C3_witness :
    mirrorSynced 1 (Model.update 1 staleModel none).1 :=
  (C3_mirror_sync 1).1 staleModel none (Model.update 1 staleModel none).1 rfl

/-- Length of a Python slice. -/
theorem pySlice_length (l : List ℚ) (a b : Nat) :
    (pySlice l a b).length = min (b - a) (l.length - a) := by
  simp [pySlice]

/-- Elements of a Python slice, related to the original array. -/
theorem pySlice_getD (l : List ℚ) (a b i : Nat) (h1 : a ≤ i) (h2 : i < b)
    (h3 : i < l.length) : (pySlice l a b).getD (i - a) 0 = l.getD i 0 := by
  have hlen : i - a < (pySlice l a b).length := by
    rw [pySlice_length]
    omega
  rw [List.getD_eq_getElem _ 0 hlen, List.getD_eq_getElem l 0 h3]
  simp only [pySlice, List.getElem_take, List.getElem_drop]
  congr 1
  omega

/-- Every in-range element of the array occurs in the slice. -/
theorem pySlice_mem (l : List ℚ) (a b i : Nat) (h1 : a ≤ i) (h2 : i < b)
    (h3 : i < l.length) : l.getD i 0 ∈ pySlice l a b := by
  have hlen : i - a < (pySlice l a b).length := by
    rw [pySlice_length]
    omega
  rw [← pySlice_getD l a b i h1 h2 h3, List.getD_eq_getElem _ 0 hlen]
  exact List.getElem_mem hlen

/-- Conversely, every slice element is an in-range element of the array. -/
theorem pySlice_mem_rev (l : List ℚ) (a b : Nat) (x : ℚ) (hx : x ∈ pySlice l a b) :
    ∃ i, a ≤ i ∧ i < b ∧ i < l.length ∧ l.getD i 0 = x := by
  obtain ⟨j, hj, hget⟩ := List.getElem_of_mem hx
  have hj' := hj
  rw [pySlice_length] at hj'
  refine ⟨a + j, by omega, by omega, by omega, ?_⟩
  rw [← hget, List.getD_eq_getElem l 0 (by omega)]
  simp only [pySlice, List.getElem_take, List.getElem_drop]

/-- All user arrays have exactly `nlay` entries (the well-formed shape every
normally-constructed model has). -/
def lensOK (m : ModelState) : Bool :=
  decide (m.thickn.length = m.nlay) && decide (m.rho.length = m.nlay) &&
  decide (m.vp.length = m.nlay) && decide (m.vs.length = m.nlay) &&
  decide (m.vpvs.length = m.nlay) && decide (m.flag.length = m.nlay) &&
  decide (m.ani.length = m.nlay) && decide (m.trend.length = m.nlay) &&
  decide (m.plunge.length = m.nlay) && decide (m.strike.length = m.nlay) &&
  decide (m.dip.length = m.nlay)

/-- Unpacking of `lensOK`. -/
theorem lensOK_spec (m : ModelState) (h : lensOK m = true) :
    m.thickn.length = m.nlay ∧ m.rho.length = m.nlay ∧ m.vp.length = m.nlay ∧
    m.vs.length = m.nlay ∧ m.vpvs.length = m.nlay ∧ m.flag.length = m.nlay ∧
    m.ani.length = m.nlay ∧ m.trend.length = m.nlay ∧ m.plunge.length = m.nlay ∧
    m.strike.length = m.nlay ∧ m.dip.length = m.nlay := by
  unfold lensOK at h
  simp only [Bool.and_eq_true, decide_eq_true_eq] at h
  tauto

/-- C6.  `combine_layers` fails with `IndexError` (the plain
invalid-argument kind) when `bottom <= top`, and with `ValueError` (the
distinct domain-error kind) when some layer of the inclusive range is
anisotropic or the range's dips or strikes are not constant; in each case
it raises before mutating anything, returning the model unchanged. -/
theorem C6_combine_errors (degrad : ℚ) (m : ModelState) (top bottom : Nat) :
    (bottom ≤ top →
      Model.combine_layers degrad m top bottom = (m, some PyErr.indexError)) ∧
    (top < bottom → bottom < m.nlay → lensOK m = true →
      ((∃ i, top ≤ i ∧ i ≤ bottom ∧ m.flag.getD i 0 = 0) ∨
       (∃ i, top ≤ i ∧ i ≤ bottom ∧ m.dip.getD i 0 ≠ m.dip.getD top 0) ∨
       (∃ i, top ≤ i ∧ i ≤ bottom ∧ m.strike.getD i 0 ≠ m.strike.getD top 0)) →
      Model.combine_layers degrad m top bottom = (m, some PyErr.valueError)) := by
  constructor
  · intro h
    unfold Model.combine_layers
    rw [if_pos h]
  · intro htb hbn hlens hbad
    obtain ⟨hth, hrh, hvp, hvs, hvv, hfl, han, htr, hpl, hst, hdp⟩ := lensOK_spec m hlens
    simp only [Model.combine_layers]
    rw [if_neg (by omega : ¬ bottom ≤ top)]
    cases hflag : (pySlice m.flag top (bottom + 1)).all (fun x => x != 0) with
    | false =>
      rw [if_pos (by simp)]
    | true =>
      have hflagNZ : ∀ i, top ≤ i → i ≤ bottom → m.flag.getD i 0 ≠ 0 := by
        intro i h1 h2 h0
        have hmem := pySlice_mem m.flag top (bottom + 1) i h1 (by omega) (by omega)
        rw [h0] at hmem
        have hx := (List.all_eq_true.mp hflag) 0 hmem
        simp at hx
      rw [if_neg (by simp)]
      have hdlen : 0 < (pySlice m.dip top (bottom + 1)).length := by
        rw [pySlice_length]
        omega
      obtain ⟨d0, ds, hne⟩ :=
        List.exists_cons_of_ne_nil (List.ne_nil_of_length_pos hdlen)
      have hd0 : d0 = m.dip.getD top 0 := by
        have hh := pySlice_getD m.dip top (bottom + 1) top (le_refl top)
          (by omega) (by omega)
        rw [hne, Nat.sub_self] at hh
        exact hh
      simp only [hne]
      cases hdall : (d0 :: ds).all (fun x => x == d0) with
      | false =>
        rw [if_pos (by simp)]
      | true =>
        have hdipEq : ∀ i, top ≤ i → i ≤ bottom →
            m.dip.getD i 0 = m.dip.getD top 0 := by
          intro i h1 h2
          have hmem := pySlice_mem m.dip top (bottom + 1) i h1 (by omega) (by omega)
          rw [hne] at hmem
          have hx := (List.all_eq_true.mp hdall) _ hmem
          simp only [beq_iff_eq] at hx
          rw [hx, hd0]
        rw [if_neg (by simp)]
        have hslen : 0 < (pySlice m.strike top (bottom + 1)).length := by
          rw [pySlice_length]
          omega
        obtain ⟨s0, ss, hsne⟩ :=
          List.exists_cons_of_ne_nil (List.ne_nil_of_length_pos hslen)
        have hs0 : s0 = m.strike.getD top 0 := by
          have hh := pySlice_getD m.strike top (bottom + 1) top (le_refl top)
            (by omega) (by omega)
          rw [hsne, Nat.sub_self] at hh
          exact hh
        simp only [hsne]
        cases hsall : (s0 :: ss).all (fun x => x == s0) with
        | false =>
          rw [if_pos (by simp)]
        | true =>
          exfalso
          have hstrEq : ∀ i, top ≤ i → i ≤ bottom →
              m.strike.getD i 0 = m.strike.getD top 0 := by
            intro i h1 h2
            have hmem := pySlice_mem m.strike top (bottom + 1) i h1 (by omega) (by omega)
            rw [hsne] at hmem
            have hx := (List.all_eq_true.mp hsall) _ hmem
            simp only [beq_iff_eq] at hx
            rw [hx, hs0]
          rcases hbad with ⟨i, h1, h2, h0⟩ | ⟨i, h1, h2, h0⟩ | ⟨i, h1, h2, h0⟩
          · exact hflagNZ i h1 h2 h0
          · exact h0 (hdipEq i h1 h2)
          · exact h0 (hstrEq i h1 h2)

/-- A two-layer model whose bottom layer is anisotropic. -/
def anisoModel : ModelState :=
  { nlay := 2
    thickn := [1000, 1000]
    rho := [2800, 2800]
    vp := [6000, 6000]
    vs := [3000, 3000]
    vpvs := [2, 2]
    flag := [1, 0]
    ani := [0, 5]
    trend := [0, 0]
    plunge := [0, 0]
    strike := [0, 0]
    dip := [0, 0]
    maxlay := 15
    fthickn := []
    frho := []
    fvp := []
    fvs := []
    fflag := []
    fani := []
    ftrend := []
    fplunge := []
    fstrike := []
    fdip := [] }

/-- Witness for C6: combining over an anisotropic layer raises the domain
error and leaves the model untouched. -/
theorem C6_witness :
    Model.combine_layers 1 anisoModel 0 1 = (anisoModel, some PyErr.valueError) :=
  (C6_combine_errors 1 anisoModel 0 1).2 (by decide) (by decide) (by decide)
    (Or.inl ⟨1, by decide, by decide, by rfl⟩)

/-- Row `n` duplicated in place (the shape `np.insert(l, n, l[n])`
produces). -/
def dupRow (l : List ℚ) (n : Nat) : List ℚ :=
  l.take n ++ l.getD n 0 :: l.getD n 0 :: l.drop (n + 1)

/-- Row `n` split into two adjacent rows of half the original value. -/
def splitRow (l : List ℚ) (n : Nat) : List ℚ :=
  l.take n ++ l.getD n 0 / 2 :: l.getD n 0 / 2 :: l.drop (n + 1)

/-- `np.insert(l, n, l[n])` in duplicated-row form. -/
theorem npInsertDup_ok (l : List ℚ) (n : Nat) (h : n < l.length) :
    npInsertDup l n = .ok (dupRow l n) := by
  unfold npInsertDup dupRow
  rw [if_pos h]
  congr 1
  rw [List.getD_eq_getElem l 0 h, List.append_assoc, List.singleton_append,
    List.drop_eq_getElem_cons h]

/-- Length of a duplicated row. -/
theorem dupRow_length (l : List ℚ) (n : Nat) (h : n < l.length) :
    (dupRow l n).length = l.length + 1 := by
  simp [dupRow]
  omega

/-- Setting at the boundary of a prefix. -/
theorem set_at (A rest : List ℚ) (i : Nat) (v : ℚ) (hA : A.length = i) :
    (A ++ rest).set i v = A ++ rest.set 0 v := by
  subst hA
  rw [List.set_append_right _ _ (le_refl _), Nat.sub_self]

/-- Reading at the boundary of a prefix. -/
theorem getD_at (A rest : List ℚ) (i : Nat) (hA : A.length = i) :
    (A ++ rest).getD i 0 = rest.getD 0 0 := by
  subst hA
  rw [List.getD_append_right _ _ _ _ (le_refl _), Nat.sub_self]

/-- Setting one past the boundary of a prefix. -/
theorem set_at_succ (A rest : List ℚ) (x : ℚ) (i : Nat) (v : ℚ) (hA : A.length = i) :
    (A ++ x :: rest).set (i + 1) v = A ++ x :: rest.set 0 v := by
  subst hA
  rw [List.set_append_right _ _ (by omega)]
  have h1 : A.length + 1 - A.length = 1 := by omega
  rw [h1]
  rfl

/-- Reading one past the boundary of a prefix. -/
theorem getD_at_succ (A rest : List ℚ) (x : ℚ) (i : Nat) (hA : A.length = i) :
    (A ++ x :: rest).getD (i + 1) 0 = rest.getD 0 0 := by
  subst hA
  rw [List.getD_append_right _ _ _ _ (by omega)]
  have h1 : A.length + 1 - A.length = 1 := by omega
  rw [h1]
  rfl

/-- Pointwise operations commute with row duplication. -/
theorem zipWith_dupRow (f : ℚ → ℚ → ℚ) (A B : List ℚ) (n : Nat)
    (hA : n < A.length) (hB : n < B.length) :
    List.zipWith f (dupRow A n) (dupRow B n) = dupRow (List.zipWith f A B) n := by
  unfold dupRow
  rw [List.zipWith_append _ _ _ _ _ (by simp [List.length_take]; omega)]
  rw [← List.zipWith_distrib_take]
  simp only [List.zipWith_cons_cons]
  rw [← List.zipWith_distrib_drop]
  have hg : (List.zipWith f A B).getD n 0 = f (A.getD n 0) (B.getD n 0) := by
    rw [List.getD_eq_getElem _ 0 (by simp [List.length_zipWith]; omega),
      List.getD_eq_getElem A 0 hA, List.getD_eq_getElem B 0 hB, List.getElem_zipWith]
  rw [hg]

/-- Splitting a row preserves the total. -/
theorem splitRow_sum (l : List ℚ) (n : Nat) (h : n < l.length) :
    (splitRow l n).sum = l.sum := by
  unfold splitRow
  conv_rhs => rw [← List.take_append_drop n l, List.drop_eq_getElem_cons h]
  rw [List.sum_append, List.sum_append, List.sum_cons, List.sum_cons, List.sum_cons]
  rw [List.getD_eq_getElem l 0 h]
  ring

set_option maxHeartbeats 1000000 in
/-- C8.  For a well-formed model and valid layer index, `split_layer(n)`
returns normally; the result duplicates row `n` of every attribute with the
two adjacent copies of the thickness halved (summing to the original), all
other rows unchanged, the layer count incremented, and the mirror
regenerated; the total thickness is preserved exactly. -/
theorem C8_split_layer (degrad : ℚ) (m : ModelState) (n : Nat)
    (hlens : lensOK m = true) (hn : n < m.nlay) (hcap : m.nlay < m.maxlay)
    (hinv : m.vpvs = List.zipWith (· / ·) m.vp m.vs) :
    Model.split_layer degrad m n =
      ({ nlay := m.nlay + 1
         thickn := splitRow m.thickn n
         rho := dupRow m.rho n
         vp := dupRow m.vp n
         vs := dupRow m.vs n
         vpvs := dupRow m.vpvs n
         flag := dupRow m.flag n
         ani := dupRow m.ani n
         trend := dupRow m.trend n
         plunge := dupRow m.plunge n
         strike := dupRow m.strike n
         dip := dupRow m.dip n
         maxlay := m.maxlay
         fthickn := fpad (splitRow m.thickn n) (m.maxlay - (m.nlay + 1))
         frho := fpad (dupRow m.rho n) (m.maxlay - (m.nlay + 1))
         fvp := fpad (dupRow m.vp n) (m.maxlay - (m.nlay + 1))
         fvs := fpad (dupRow m.vs n) (m.maxlay - (m.nlay + 1))
         fflag := fpad (dupRow m.flag n) (m.maxlay - (m.nlay + 1))
         fani := fpad (dupRow m.ani n) (m.maxlay - (m.nlay + 1))
         ftrend := (fpad (dupRow m.trend n) (m.maxlay - (m.nlay + 1))).map (· * degrad)
         fplunge := (fpad (dupRow m.plunge n) (m.maxlay - (m.nlay + 1))).map (· * degrad)
         fstrike := (fpad (dupRow m.strike n) (m.maxlay - (m.nlay + 1))).map (· * degrad)
         fdip := (fpad (dupRow m.dip n) (m.maxlay - (m.nlay + 1))).map (· * degrad) },
       none) ∧
    (splitRow m.thickn n).sum = m.thickn.sum := by
  obtain ⟨hth, hrh, hvp2, hvs2, hvv, hfl, han, htr, hpl, hst, hdp⟩ := lensOK_spec m hlens
  have e1 := npInsertDup_ok m.thickn n (by omega)
  have e2 := npInsertDup_ok m.rho n (by omega)
  have e3 := npInsertDup_ok m.vp n (by omega)
  have e4 := npInsertDup_ok m.vs n (by omega)
  have e5 := npInsertDup_ok m.vpvs n (by omega)
  have e6 := npInsertDup_ok m.flag n (by omega)
  have e7 := npInsertDup_ok m.ani n (by omega)
  have e8 := npInsertDup_ok m.trend n (by omega)
  have e9 := npInsertDup_ok m.plunge n (by omega)
  have e10 := npInsertDup_ok m.strike n (by omega)
  have e11 := npInsertDup_ok m.dip n (by omega)
  have htkn : (m.thickn.take n).length = n := by
    simp [List.length_take]
    omega
  have e12 : pyListUpdate (dupRow m.thickn n) n (· / 2)
      = .ok (m.thickn.take n ++
          m.thickn.getD n 0 / 2 :: m.thickn.getD n 0 :: m.thickn.drop (n + 1)) := by
    unfold pyListUpdate
    rw [if_pos (by rw [dupRow_length m.thickn n (by omega)]; omega)]
    unfold dupRow
    rw [getD_at _ _ n htkn, set_at _ _ n _ htkn]
    rfl
  have e13 : pyListUpdate (m.thickn.take n ++
        m.thickn.getD n 0 / 2 :: m.thickn.getD n 0 :: m.thickn.drop (n + 1)) (n + 1) (· / 2)
      = .ok (splitRow m.thickn n) := by
    unfold pyListUpdate
    rw [if_pos (by simp [List.length_take]; omega)]
    rw [getD_at_succ _ _ _ n htkn, set_at_succ _ _ _ n _ htkn]
    rfl
  have hloop : insertLoop n m USERATTS =
      ({ m with
          thickn := dupRow m.thickn n
          rho := dupRow m.rho n
          vp := dupRow m.vp n
          vs := dupRow m.vs n
          vpvs := dupRow m.vpvs n
          flag := dupRow m.flag n
          ani := dupRow m.ani n
          trend := dupRow m.trend n
          plunge := dupRow m.plunge n
          strike := dupRow m.strike n
          dip := dupRow m.dip n }, none) := by
    simp only [USERATTS, insertLoop, ModelState.getAttr, ModelState.setAttr,
      e1, e2, e3, e4, e5, e6, e7, e8, e9, e10, e11]
  have hdiv : npDiv (dupRow m.vp n) (dupRow m.vs n) = .ok (dupRow m.vpvs n) := by
    unfold npDiv npBinOp
    rw [if_pos (by rw [dupRow_length m.vp n (by omega), dupRow_length m.vs n (by omega)]; omega)]
    rw [zipWith_dupRow _ m.vp m.vs n (by omega) (by omega), ← hinv]
  refine ⟨?_, splitRow_sum m.thickn n (by omega)⟩
  simp only [Model.split_layer, hloop, e12, e13, Model.update, hdiv]
  unfold Model.set_fattributes
  rw [if_neg (show ¬ (m.maxlay < m.nlay + 1) by omega)]

/-- Witness for C8: splitting the top layer of the concrete two-layer model
preserves the total thickness. -/
theorem C8_witness :
    (splitRow anisoModel.thickn 0).sum = anisoModel.thickn.sum :=
  (C8_split_layer 1 anisoModel 0 (by decide) (by decide) (by decide)
    (by norm_num [anisoModel])).2

/-- Thickness-weighted average of the values `v` over the thicknesses `t`. -/
def wavg (v t : List ℚ) : ℚ :=
  (List.zipWith (fun a b => a * b) v t).sum / t.sum

/-- Multiplying against pre-divided weights is the weighted sum divided by
the total. -/
theorem weighted_sum (v : List ℚ) (T : ℚ) :
    ∀ t : List ℚ, (List.zipWith (fun a b => a * b) v (t.map (fun x => x / T))).sum
      = (List.zipWith (fun a b => a * b) v t).sum / T := by
  induction v with
  | nil => intro t; simp
  | cons a as ih =>
    intro t
    cases t with
    | nil => simp
    | cons b bs =>
      simp only [List.map_cons, List.zipWith_cons_cons, List.sum_cons, ih bs]
      ring

/-- Replacing the entry at `top` and then deleting rows `top+1 .. bot-1`
yields prefix, new value, suffix. -/
theorem surgery (l : List ℚ) (v : ℚ) (top bot : Nat) (h1 : top < l.length)
    (h2 : top < bot) :
    (l.set top v).take (top + 1) ++ (l.set top v).drop bot
      = l.take top ++ v :: l.drop bot := by
  rw [List.set_eq_take_append_cons_drop, if_pos h1]
  have htk : (l.take top).length = top := by
    simp [List.length_take]
    omega
  conv_lhs => rw [show top + 1 = (l.take top).length + 1 by rw [htk]]
  rw [List.take_append]
  conv_lhs => rw [show bot = (l.take top).length + (bot - top) by rw [htk]; omega]
  rw [List.drop_append]
  have e3 : bot - top = (bot - top - 1) + 1 := by omega
  rw [e3, List.drop_succ_cons, List.drop_drop]
  rw [htk]
  rw [show top + 1 + (bot - top - 1) = bot from by omega]
  simp

/-- One loop step of `combine_layers` for an attribute carrying a combined
value. -/
theorem combineStep_some (l : List ℚ) (v : ℚ) (top bot : Nat)
    (h1 : top < l.length) (h2 : top + 1 < bot) (h3 : bot ≤ l.length) :
    combineStep l (some v) top bot = (l.take top ++ v :: l.drop bot, none) := by
  have c3 : ¬ ((l.set top v).length < bot) := by
    rw [List.length_set]
    omega
  simp only [combineStep, pyListSet, npDeleteRange, eq_true h1, eq_true h2,
    eq_false c3, if_true, if_false]
  rw [surgery l v top bot h1 (by omega)]

/-- One loop step of `combine_layers` for an attribute inherited from
`top`. -/
theorem combineStep_none (l : List ℚ) (top bot : Nat) (h2 : top + 1 < bot)
    (h3 : bot ≤ l.length) :
    combineStep l none top bot = (l.take (top + 1) ++ l.drop bot, none) := by
  have c3 : ¬ (l.length < bot) := by omega
  simp only [combineStep, npDeleteRange, eq_true h2, eq_false c3, if_true, if_false]

/-- The merged state produced by a successful `combine_layers(top, bottom)`:
summed thickness and thickness-weighted `vp`, `vs`, `rho` at `top`, rows
`top+1 .. bottom` deleted everywhere, every other attribute of row `top`
kept, the layer count shrunk, the `vpvs` ratio recomputed from the new
velocities by `update`, and the mirror regenerated. -/
def combinedState (degrad : ℚ) (m : ModelState) (top bottom : Nat) : ModelState :=
  let bot := bottom + 1
  let tsl := pySlice m.thickn top bot
  let thickn' := m.thickn.take top ++ tsl.sum :: m.thickn.drop bot
  let rho' := m.rho.take top ++ wavg (pySlice m.rho top bot) tsl :: m.rho.drop bot
  let vp' := m.vp.take top ++ wavg (pySlice m.vp top bot) tsl :: m.vp.drop bot
  let vs' := m.vs.take top ++ wavg (pySlice m.vs top bot) tsl :: m.vs.drop bot
  let nlay' := m.nlay - (bottom - top)
  let K := m.maxlay - nlay'
  let flag' := m.flag.take (top + 1) ++ m.flag.drop bot
  let ani' := m.ani.take (top + 1) ++ m.ani.drop bot
  let trend' := m.trend.take (top + 1) ++ m.trend.drop bot
  let plunge' := m.plunge.take (top + 1) ++ m.plunge.drop bot
  let strike' := m.strike.take (top + 1) ++ m.strike.drop bot
  let dip' := m.dip.take (top + 1) ++ m.dip.drop bot
  let vpvs' := List.zipWith (· / ·) vp' vs'
  { nlay := nlay'
    thickn := thickn'
    rho := rho'
    vp := vp'
    vs := vs'
    vpvs := vpvs'
    flag := flag'
    ani := ani'
    trend := trend'
    plunge := plunge'
    strike := strike'
    dip := dip'
    maxlay := m.maxlay
    fthickn := fpad thickn' K
    frho := fpad rho' K
    fvp := fpad vp' K
    fvs := fpad vs' K
    fflag := fpad flag' K
    fani := fpad ani' K
    ftrend := (fpad trend' K).map (· * degrad)
    fplunge := (fpad plunge' K).map (· * degrad)
    fstrike := (fpad strike' K).map (· * degrad)
    fdip := (fpad dip' K).map (· * degrad) }

set_option maxHeartbeats 1600000 in
/-- C5 (amended).  On a well-formed model whose layers `top .. bottom` are
all isotropic with identical strike and identical dip (`top < bottom`),
`combine_layers` returns normally with the merged state: thickness summed,
`vp`, `vs`, `rho` thickness-weighted averages at `top`, rows
`top+1 .. bottom` deleted (so the layer count decreases by
`bottom - top`), and the remaining attributes of row `top` kept — except
the derived `vpvs` ratio, which is recomputed from the averaged velocities
rather than inherited. -/
theorem C5_combine_merge (degrad : ℚ) (m : ModelState) (top bottom : Nat)
    (hlens : lensOK m = true) (hmax : m.nlay ≤ m.maxlay) (htb : top < bottom)
    (hbn : bottom < m.nlay)
    (hiso : ∀ i, top ≤ i → i ≤ bottom → m.flag.getD i 0 = 1)
    (hdipc : ∀ i, top ≤ i → i ≤ bottom → m.dip.getD i 0 = m.dip.getD top 0)
    (hstrc : ∀ i, top ≤ i → i ≤ bottom → m.strike.getD i 0 = m.strike.getD top 0) :
    Model.combine_layers degrad m top bottom
      = (combinedState degrad m top bottom, none) := by
  obtain ⟨hth, hrh, hvp2, hvs2, hvv, hfl, han, htr, hpl, hst, hdp⟩ := lensOK_spec m hlens
  have hbt : ¬ bottom ≤ top := by omega
  have hflagT : ((pySlice m.flag top (bottom + 1)).all fun x => x != 0) = true := by
    rw [List.all_eq_true]
    intro x hx
    obtain ⟨i, hi1, hi2, hi3, hieq⟩ := pySlice_mem_rev _ _ _ _ hx
    rw [← hieq, hiso i hi1 (by omega)]
    simp
  have hdlen : 0 < (pySlice m.dip top (bottom + 1)).length := by
    rw [pySlice_length]
    omega
  obtain ⟨d0, ds, hne⟩ := List.exists_cons_of_ne_nil (List.ne_nil_of_length_pos hdlen)
  have hd0 : d0 = m.dip.getD top 0 := by
    have hh := pySlice_getD m.dip top (bottom + 1) top (le_refl top) (by omega) (by omega)
    rw [hne, Nat.sub_self] at hh
    exact hh
  have hdallT : ((d0 :: ds).all fun x => x == d0) = true := by
    rw [List.all_eq_true]
    intro x hx
    rw [← hne] at hx
    obtain ⟨i, hi1, hi2, hi3, hieq⟩ := pySlice_mem_rev _ _ _ _ hx
    simp only [beq_iff_eq]
    rw [← hieq, hdipc i hi1 (by omega), hd0]
  have hslen : 0 < (pySlice m.strike top (bottom + 1)).length := by
    rw [pySlice_length]
    omega
  obtain ⟨s0, ss, hsne⟩ := List.exists_cons_of_ne_nil (List.ne_nil_of_length_pos hslen)
  have hs0 : s0 = m.strike.getD top 0 := by
    have hh := pySlice_getD m.strike top (bottom + 1) top (le_refl top) (by omega) (by omega)
    rw [hsne, Nat.sub_self] at hh
    exact hh
  have hsallT : ((s0 :: ss).all fun x => x == s0) = true := by
    rw [List.all_eq_true]
    intro x hx
    rw [← hsne] at hx
    obtain ⟨i, hi1, hi2, hi3, hieq⟩ := pySlice_mem_rev _ _ _ _ hx
    simp only [beq_iff_eq]
    rw [← hieq, hstrc i hi1 (by omega), hs0]
  have hmulvp : npMul (pySlice m.vp top (bottom + 1))
      ((pySlice m.thickn top (bottom + 1)).map
        (fun x => x / (pySlice m.thickn top (bottom + 1)).sum))
      = .ok (List.zipWith (fun a b => a * b) (pySlice m.vp top (bottom + 1))
          ((pySlice m.thickn top (bottom + 1)).map
            (fun x => x / (pySlice m.thickn top (bottom + 1)).sum))) := by
    unfold npMul npBinOp
    rw [if_pos (by simp only [List.length_map, pySlice_length]; omega)]
  have hmulvs : npMul (pySlice m.vs top (bottom + 1))
      ((pySlice m.thickn top (bottom + 1)).map
        (fun x => x / (pySlice m.thickn top (bottom + 1)).sum))
      = .ok (List.zipWith (fun a b => a * b) (pySlice m.vs top (bottom + 1))
          ((pySlice m.thickn top (bottom + 1)).map
            (fun x => x / (pySlice m.thickn top (bottom + 1)).sum))) := by
    unfold npMul npBinOp
    rw [if_pos (by simp only [List.length_map, pySlice_length]; omega)]
  have hmulrho : npMul (pySlice m.rho top (bottom + 1))
      ((pySlice m.thickn top (bottom + 1)).map
        (fun x => x / (pySlice m.thickn top (bottom + 1)).sum))
      = .ok (List.zipWith (fun a b => a * b) (pySlice m.rho top (bottom + 1))
          ((pySlice m.thickn top (bottom + 1)).map
            (fun x => x / (pySlice m.thickn top (bottom + 1)).sum))) := by
    unfold npMul npBinOp
    rw [if_pos (by simp only [List.length_map, pySlice_length]; omega)]
  have hvalvp : (List.zipWith (fun a b => a * b) (pySlice m.vp top (bottom + 1))
      ((pySlice m.thickn top (bottom + 1)).map
        (fun x => x / (pySlice m.thickn top (bottom + 1)).sum))).sum
      = wavg (pySlice m.vp top (bottom + 1)) (pySlice m.thickn top (bottom + 1)) := by
    rw [weighted_sum]
    rfl
  have hvalvs : (List.zipWith (fun a b => a * b) (pySlice m.vs top (bottom + 1))
      ((pySlice m.thickn top (bottom + 1)).map
        (fun x => x / (pySlice m.thickn top (bottom + 1)).sum))).sum
      = wavg (pySlice m.vs top (bottom + 1)) (pySlice m.thickn top (bottom + 1)) := by
    rw [weighted_sum]
    rfl
  have hvalrho : (List.zipWith (fun a b => a * b) (pySlice m.rho top (bottom + 1))
      ((pySlice m.thickn top (bottom + 1)).map
        (fun x => x / (pySlice m.thickn top (bottom + 1)).sum))).sum
      = wavg (pySlice m.rho top (bottom + 1)) (pySlice m.thickn top (bottom + 1)) := by
    rw [weighted_sum]
    rfl
  have hbot2 : top + 1 < bottom + 1 := by omega
  have cs1 := combineStep_some m.thickn (pySlice m.thickn top (bottom + 1)).sum
    top (bottom + 1) (by omega) hbot2 (by omega)
  have cs2 := combineStep_some m.rho
    (wavg (pySlice m.rho top (bottom + 1)) (pySlice m.thickn top (bottom + 1)))
    top (bottom + 1) (by omega) hbot2 (by omega)
  have cs3 := combineStep_some m.vp
    (wavg (pySlice m.vp top (bottom + 1)) (pySlice m.thickn top (bottom + 1)))
    top (bottom + 1) (by omega) hbot2 (by omega)
  have cs4 := combineStep_some m.vs
    (wavg (pySlice m.vs top (bottom + 1)) (pySlice m.thickn top (bottom + 1)))
    top (bottom + 1) (by omega) hbot2 (by omega)
  have cs5 := combineStep_none m.vpvs top (bottom + 1) hbot2 (by omega)
  have cs6 := combineStep_none m.flag top (bottom + 1) hbot2 (by omega)
  have cs7 := combineStep_none m.ani top (bottom + 1) hbot2 (by omega)
  have cs8 := combineStep_none m.trend top (bottom + 1) hbot2 (by omega)
  have cs9 := combineStep_none m.plunge top (bottom + 1) hbot2 (by omega)
  have cs10 := combineStep_none m.strike top (bottom + 1) hbot2 (by omega)
  have cs11 := combineStep_none m.dip top (bottom + 1) hbot2 (by omega)
  have hdivN : npDiv
      (m.vp.take top ++ wavg (pySlice m.vp top (bottom + 1))
        (pySlice m.thickn top (bottom + 1)) :: m.vp.drop (bottom + 1))
      (m.vs.take top ++ wavg (pySlice m.vs top (bottom + 1))
        (pySlice m.thickn top (bottom + 1)) :: m.vs.drop (bottom + 1))
      = .ok (List.zipWith (· / ·)
          (m.vp.take top ++ wavg (pySlice m.vp top (bottom + 1))
            (pySlice m.thickn top (bottom + 1)) :: m.vp.drop (bottom + 1))
          (m.vs.take top ++ wavg (pySlice m.vs top (bottom + 1))
            (pySlice m.thickn top (bottom + 1)) :: m.vs.drop (bottom + 1))) := by
    unfold npDiv npBinOp
    rw [if_pos (by
      simp only [List.length_append, List.length_cons, List.length_take, List.length_drop]
      omega)]
  simp only [Model.combine_layers]
  rw [if_neg hbt]
  rw [if_neg (by simp [hflagT])]
  simp only [hne]
  rw [if_neg (by simp [hdallT])]
  simp only [hsne]
  rw [if_neg (by simp [hsallT])]
  simp only [hmulvp, hmulvs, hmulrho, hvalvp, hvalvs, hvalrho]
  simp only [USERATTS, combineLoop, ModelState.getAttr, ModelState.setAttr,
    cs1, cs2, cs3, cs4, cs5, cs6, cs7, cs8, cs9, cs10, cs11]
  simp only [Model.update, hdivN]
  unfold Model.set_fattributes
  rw [if_neg (show ¬ (m.maxlay < m.nlay - (bottom - top)) by omega)]
  simp only [combinedState]

/-- A well-formed two-layer isotropic model whose two layers have different
Vp/Vs ratios. -/
def vpvsModel : ModelState :=
  { nlay := 2
    thickn := [1000, 1000]
    rho := [2800, 2800]
    vp := [6000, 9000]
    vs := [3000, 3000]
    vpvs := [2, 3]
    flag := [1, 1]
    ani := [0, 0]
    trend := [0, 0]
    plunge := [0, 0]
    strike := [0, 0]
    dip := [0, 0]
    maxlay := 15
    fthickn := [1000, 1000]
    frho := [2800, 2800]
    fvp := [6000, 9000]
    fvs := [3000, 3000]
    fflag := [1, 1]
    fani := [0, 0]
    ftrend := [0, 0]
    fplunge := [0, 0]
    fstrike := [0, 0]
    fdip := [0, 0] }

/-- Counterexample for C5 as stated: combining two isotropic, same-strike,
same-dip layers succeeds, but the combined layer's Vp/Vs ratio does not
equal the ratio layer `top` had before the call (2): it is recomputed from
the averaged velocities (7500 / 3000 = 5/2). -/
theorem C5_counterexample :
    (Model.combine_layers 1 vpvsModel 0 1).2 = none ∧
    (Model.combine_layers 1 vpvsModel 0 1).1.vpvs.getD 0 0
      ≠ vpvsModel.vpvs.getD 0 0 := by
  constructor
  · rfl
  · have h2 : (Model.combine_layers 1 vpvsModel 0 1).1.vpvs
        = [(List.zipWith (· * ·) (pySlice vpvsModel.vp 0 2)
              ((pySlice vpvsModel.thickn 0 2).map
                (fun x => x / (pySlice vpvsModel.thickn 0 2).sum))).sum
           / (List.zipWith (· * ·) (pySlice vpvsModel.vs 0 2)
              ((pySlice vpvsModel.thickn 0 2).map
                (fun x => x / (pySlice vpvsModel.thickn 0 2).sum))).sum] := rfl
    rw [h2]
    simp [vpvsModel, pySlice]
    norm_num

/-- Witness for C5 (amended): combining the two layers of the concrete
model produces exactly the merged state. -/
theorem C5_witness :
    Model.combine_layers 1 vpvsModel 0 1 = (combinedState 1 vpvsModel 0 1, none) :=
  C5_combine_merge 1 vpvsModel 0 1 (by decide) (by decide) (by decide) (by decide)
    (by intro i h1 h2; interval_cases i <;> rfl)
    (by intro i h1 h2; interval_cases i <;> rfl)
    (by intro i h1 h2; interval_cases i <;> rfl)

/-- `getD` after an out-of-place `set`. -/
theorem getD_set_ne (l : List ℚ) (i j : Nat) (v : ℚ) (h : i ≠ j) :
    (l.set i v).getD j 0 = l.getD j 0 := by
  rw [List.getD_eq_getElem?_getD, List.getD_eq_getElem?_getD, List.getElem?_set_ne h]

/-- `getD` after an in-place `set`. -/
theorem getD_set_self (l : List ℚ) (i : Nat) (v : ℚ) (h : i < l.length) :
    (l.set i v).getD i 0 = v := by
  rw [List.getD_eq_getElem?_getD, List.getElem?_set_self h, Option.getD_some]

/-- Reading back the attribute just replaced. -/
theorem getAttr_setAttr_same (m : ModelState) (a : MAttr) (l : List ℚ) :
    (m.setAttr a l).getAttr a = l := by
  cases a <;> rfl

/-- Reading a different attribute after a replacement. -/
theorem getAttr_setAttr_ne (m : ModelState) (a b : MAttr) (l : List ℚ) (h : b ≠ a) :
    (m.setAttr a l).getAttr b = m.getAttr b := by
  cases a <;> cases b <;> first | rfl | exact absurd rfl h

/-- `setAttr` does not change the layer count. -/
theorem setAttr_nlay (m : ModelState) (a : MAttr) (l : List ℚ) :
    (m.setAttr a l).nlay = m.nlay := by
  cases a <;> rfl

/-- `setAttr` does not change the capacity. -/
theorem setAttr_maxlay (m : ModelState) (a : MAttr) (l : List ℚ) :
    (m.setAttr a l).maxlay = m.maxlay := by
  cases a <;> rfl

/-- `setAttr` away from `flag` keeps the flags. -/
theorem setAttr_flag (m : ModelState) (a : MAttr) (l : List ℚ) (h : a ≠ MAttr.flag) :
    (m.setAttr a l).flag = m.flag := by
  cases a <;> first | rfl | exact absurd rfl h

/-- Length of the anisotropy array after a length-preserving `setAttr`. -/
theorem setAttr_ani_length (m : ModelState) (a : MAttr) (l : List ℚ)
    (hl : l.length = (m.getAttr a).length) :
    (m.setAttr a l).ani.length = m.ani.length := by
  cases a <;> simp_all [ModelState.setAttr, ModelState.getAttr]

/-- Length of `vp` after a length-preserving `setAttr`. -/
theorem setAttr_vp_length (m : ModelState) (a : MAttr) (l : List ℚ)
    (hl : l.length = (m.getAttr a).length) :
    (m.setAttr a l).vp.length = m.vp.length := by
  cases a <;> simp_all [ModelState.setAttr, ModelState.getAttr]

/-- Length of `vs` after a length-preserving `setAttr`. -/
theorem setAttr_vs_length (m : ModelState) (a : MAttr) (l : List ℚ)
    (hl : l.length = (m.getAttr a).length) :
    (m.setAttr a l).vs.length = m.vs.length := by
  cases a <;> simp_all [ModelState.setAttr, ModelState.getAttr]

/-- Uniform length of the user attribute arrays of a well-formed model. -/
theorem getAttr_length (m : ModelState) (hlens : lensOK m = true) (a : MAttr) :
    (m.getAttr a).length = m.nlay := by
  obtain ⟨hth, hrh, hvp2, hvs2, hvv, hfl, han, htr, hpl, hst, hdp⟩ := lensOK_spec m hlens
  cases a <;> simp only [ModelState.getAttr] <;> assumption

/-- `Model.update` with `fix=None`: recompute `vpvs` by elementwise
division and regenerate the mirror. -/
theorem update_none_result (degrad : ℚ) (m : ModelState)
    (hlen : m.vp.length = m.vs.length) (hcap : m.nlay ≤ m.maxlay) :
    Model.update degrad m none =
      ({ m with
          vpvs := List.zipWith (· / ·) m.vp m.vs
          fthickn := fpad m.thickn (m.maxlay - m.nlay)
          frho := fpad m.rho (m.maxlay - m.nlay)
          fvp := fpad m.vp (m.maxlay - m.nlay)
          fvs := fpad m.vs (m.maxlay - m.nlay)
          fflag := fpad m.flag (m.maxlay - m.nlay)
          fani := fpad m.ani (m.maxlay - m.nlay)
          ftrend := (fpad m.trend (m.maxlay - m.nlay)).map (· * degrad)
          fplunge := (fpad m.plunge (m.maxlay - m.nlay)).map (· * degrad)
          fstrike := (fpad m.strike (m.maxlay - m.nlay)).map (· * degrad)
          fdip := (fpad m.dip (m.maxlay - m.nlay)).map (· * degrad) }, none) := by
  have hd : npDiv m.vp m.vs = .ok (List.zipWith (· / ·) m.vp m.vs) := by
    unfold npDiv npBinOp
    rw [if_pos hlen]
  simp only [Model.update, hd]
  unfold Model.set_fattributes
  rw [if_neg (show ¬ (m.maxlay < m.nlay) by omega)]

/-- `Model.update` with `fix='vs'`: recompute `vp = vs * vpvs` and
regenerate the mirror. -/
theorem update_fixvs_result (degrad : ℚ) (m : ModelState)
    (hlen : m.vs.length = m.vpvs.length) (hcap : m.nlay ≤ m.maxlay) :
    Model.update degrad m (some "vs") =
      ({ m with
          vp := List.zipWith (· * ·) m.vs m.vpvs
          fthickn := fpad m.thickn (m.maxlay - m.nlay)
          frho := fpad m.rho (m.maxlay - m.nlay)
          fvp := fpad (List.zipWith (· * ·) m.vs m.vpvs) (m.maxlay - m.nlay)
          fvs := fpad m.vs (m.maxlay - m.nlay)
          fflag := fpad m.flag (m.maxlay - m.nlay)
          fani := fpad m.ani (m.maxlay - m.nlay)
          ftrend := (fpad m.trend (m.maxlay - m.nlay)).map (· * degrad)
          fplunge := (fpad m.plunge (m.maxlay - m.nlay)).map (· * degrad)
          fstrike := (fpad m.strike (m.maxlay - m.nlay)).map (· * degrad)
          fdip := (fpad m.dip (m.maxlay - m.nlay)).map (· * degrad) }, none) := by
  have hd : npMul m.vs m.vpvs = .ok (List.zipWith (· * ·) m.vs m.vpvs) := by
    unfold npMul npBinOp
    rw [if_pos hlen]
  simp only [Model.update]
  rw [if_neg (show ¬ (("vs" : String) = "vp") by decide), if_true]
  simp only [hd]
  unfold Model.set_fattributes
  rw [if_neg (show ¬ (m.maxlay < m.nlay) by omega)]

/-- `Model.update` with `fix='vp'`: recompute `vs = vp / vpvs` and
regenerate the mirror. -/
theorem update_fixvp_result (degrad : ℚ) (m : ModelState)
    (hlen : m.vp.length = m.vpvs.length) (hcap : m.nlay ≤ m.maxlay) :
    Model.update degrad m (some "vp") =
      ({ m with
          vs := List.zipWith (· / ·) m.vp m.vpvs
          fthickn := fpad m.thickn (m.maxlay - m.nlay)
          frho := fpad m.rho (m.maxlay - m.nlay)
          fvp := fpad m.vp (m.maxlay - m.nlay)
          fvs := fpad (List.zipWith (· / ·) m.vp m.vpvs) (m.maxlay - m.nlay)
          fflag := fpad m.flag (m.maxlay - m.nlay)
          fani := fpad m.ani (m.maxlay - m.nlay)
          ftrend := (fpad m.trend (m.maxlay - m.nlay)).map (· * degrad)
          fplunge := (fpad m.plunge (m.maxlay - m.nlay)).map (· * degrad)
          fstrike := (fpad m.strike (m.maxlay - m.nlay)).map (· * degrad)
          fdip := (fpad m.dip (m.maxlay - m.nlay)).map (· * degrad) }, none) := by
  have hd : npDiv m.vp m.vpvs = .ok (List.zipWith (· / ·) m.vp m.vpvs) := by
    unfold npDiv npBinOp
    rw [if_pos hlen]
  simp only [Model.update]
  rw [if_true]
  simp only [hd]
  unfold Model.set_fattributes
  rw [if_neg (show ¬ (m.maxlay < m.nlay) by omega)]

set_option maxHeartbeats 1000000 in
/-- Behaviour of the applied directive body for the keys that call `update`
with `fix=None` (every key except the two ratio keys): the targeted entry
receives the signed value, the layer's flag is recomputed from its
anisotropy, other attributes and other flag rows are untouched, and `vpvs`
ends up as the elementwise ratio of the final velocities. -/
theorem applyDirective_none_spec (degrad : ℚ) (m : ModelState) (attr : MAttr)
    (lay : Nat) (sgn : Char) (inc : ℚ)
    (hlens : lensOK m = true) (hmax : m.nlay ≤ m.maxlay) (hlay : lay < m.nlay)
    (hflag : attr ≠ MAttr.flag) (hvpvs : attr ≠ MAttr.vpvs) :
    (applyDirective degrad m attr lay sgn inc none).2 = none ∧
    (applyDirective degrad m attr lay sgn inc none).1.getAttr attr
      = (m.getAttr attr).set lay (applyOp sgn ((m.getAttr attr).getD lay 0) inc) ∧
    ((applyDirective degrad m attr lay sgn inc none).1.flag.getD lay 0
      = if (applyDirective degrad m attr lay sgn inc none).1.ani.getD lay 0 = 0
        then 1 else 0) ∧
    (applyDirective degrad m attr lay sgn inc none).1.vpvs
      = List.zipWith (· / ·) (applyDirective degrad m attr lay sgn inc none).1.vp
          (applyDirective degrad m attr lay sgn inc none).1.vs ∧
    (∀ b : MAttr, b ≠ attr → b ≠ MAttr.flag → b ≠ MAttr.vpvs →
      (applyDirective degrad m attr lay sgn inc none).1.getAttr b = m.getAttr b) ∧
    (∀ j, j ≠ lay →
      (applyDirective degrad m attr lay sgn inc none).1.flag.getD j 0
        = m.flag.getD j 0) := by
  obtain ⟨hth, hrh, hvp2, hvs2, hvv, hfl, han, htr, hpl, hst, hdp⟩ := lensOK_spec m hlens
  have hlenAttr := getAttr_length m hlens attr
  have h1 : pyListUpdate (m.getAttr attr) lay (fun old => applyOp sgn old inc)
      = .ok ((m.getAttr attr).set lay (applyOp sgn ((m.getAttr attr).getD lay 0) inc)) := by
    unfold pyListUpdate
    rw [if_pos (by rw [hlenAttr]; exact hlay)]
  generalize hL : (m.getAttr attr).set lay (applyOp sgn ((m.getAttr attr).getD lay 0) inc)
    = L at h1 ⊢
  have hLlen : L.length = (m.getAttr attr).length := by
    rw [← hL]
    simp [List.length_set]
  have h2 : pyListSet (m.setAttr attr L).flag lay 1 = .ok (m.flag.set lay 1) := by
    rw [setAttr_flag m attr L hflag]
    unfold pyListSet
    rw [if_pos (by rw [hfl]; exact hlay)]
  have hani : (m.setAttr attr L).ani.length = m.ani.length :=
    setAttr_ani_length m attr L hLlen
  have h3 : pyListGet (m.setAttr attr L).ani lay
      = .ok ((m.setAttr attr L).ani.getD lay 0) := by
    unfold pyListGet
    rw [if_pos (by rw [hani, han]; exact hlay)]
  have hvplen : ∀ fl2 : List ℚ,
      ({ m.setAttr attr L with flag := fl2 } : ModelState).vp.length
        = ({ m.setAttr attr L with flag := fl2 } : ModelState).vs.length := by
    intro fl2
    show (m.setAttr attr L).vp.length = (m.setAttr attr L).vs.length
    rw [setAttr_vp_length m attr L hLlen, setAttr_vs_length m attr L hLlen, hvp2, hvs2]
  have hcap2 : ∀ fl2 : List ℚ,
      ({ m.setAttr attr L with flag := fl2 } : ModelState).nlay
        ≤ ({ m.setAttr attr L with flag := fl2 } : ModelState).maxlay := by
    intro fl2
    show (m.setAttr attr L).nlay ≤ (m.setAttr attr L).maxlay
    rw [setAttr_nlay, setAttr_maxlay]
    exact hmax
  by_cases hav : (m.setAttr attr L).ani.getD lay 0 ≠ 0
  · have hkey : applyDirective degrad m attr lay sgn inc none =
        Model.update degrad
          { m.setAttr attr L with flag := (m.flag.set lay 1).set lay 0 } none := by
      simp only [applyDirective, h1, h2, h3]
      rw [if_pos hav]
    rw [hkey, update_none_result degrad _ (hvplen _) (hcap2 _)]
    refine ⟨rfl, ?_, ?_, rfl, ?_, ?_⟩
    · cases attr <;> first | rfl | exact absurd rfl hflag | exact absurd rfl hvpvs
    · rw [show ({ m.setAttr attr L with flag := (m.flag.set lay 1).set lay 0 } :
          ModelState).flag = (m.flag.set lay 1).set lay 0 from rfl]
      rw [List.set_set, getD_set_self m.flag lay 0 (by rw [hfl]; exact hlay)]
      rw [if_neg hav]
    · intro b hb1 hb2 hb3
      cases attr <;> cases b <;>
        first
          | rfl
          | exact absurd rfl hb1
          | exact absurd rfl hb2
          | exact absurd rfl hb3
    · intro j hj
      rw [show ({ m.setAttr attr L with flag := (m.flag.set lay 1).set lay 0 } :
          ModelState).flag = (m.flag.set lay 1).set lay 0 from rfl]
      rw [List.set_set, getD_set_ne m.flag lay j 0 (fun hc => hj hc.symm)]
  · have hkey : applyDirective degrad m attr lay sgn inc none =
        Model.update degrad
          { m.setAttr attr L with flag := m.flag.set lay 1 } none := by
      simp only [applyDirective, h1, h2, h3]
      rw [if_neg hav]
    rw [hkey, update_none_result degrad _ (hvplen _) (hcap2 _)]
    refine ⟨rfl, ?_, ?_, rfl, ?_, ?_⟩
    · cases attr <;> first | rfl | exact absurd rfl hflag | exact absurd rfl hvpvs
    · rw [show ({ m.setAttr attr L with flag := m.flag.set lay 1 } :
          ModelState).flag = m.flag.set lay 1 from rfl]
      rw [getD_set_self m.flag lay 1 (by rw [hfl]; exact hlay)]
      rw [if_pos (by simpa using hav)]
    · intro b hb1 hb2 hb3
      cases attr <;> cases b <;>
        first
          | rfl
          | exact absurd rfl hb1
          | exact absurd rfl hb2
          | exact absurd rfl hb3
    · intro j hj
      rw [show ({ m.setAttr attr L with flag := m.flag.set lay 1 } :
          ModelState).flag = m.flag.set lay 1 from rfl]
      rw [getD_set_ne m.flag lay j 1 (fun hc => hj hc.symm)]

set_option maxHeartbeats 1000000 in
/-- Behaviour of the applied directive body for the `pss` key (`fix='vp'`):
the Vp/Vs ratio entry receives the unconverted signed value and the flag is
recomputed from the anisotropy of the affected layer. -/
theorem applyDirective_fixvp_spec (degrad : ℚ) (m : ModelState)
    (lay : Nat) (sgn : Char) (inc : ℚ)
    (hlens : lensOK m = true) (hmax : m.nlay ≤ m.maxlay) (hlay : lay < m.nlay) :
    (applyDirective degrad m .vpvs lay sgn inc (some "vp")).2 = none ∧
    (applyDirective degrad m .vpvs lay sgn inc (some "vp")).1.vpvs
      = m.vpvs.set lay (applyOp sgn (m.vpvs.getD lay 0) inc) ∧
    ((applyDirective degrad m .vpvs lay sgn inc (some "vp")).1.flag.getD lay 0
      = if (applyDirective degrad m .vpvs lay sgn inc (some "vp")).1.ani.getD lay 0 = 0
        then 1 else 0) := by
  obtain ⟨hth, hrh, hvp2, hvs2, hvv, hfl, han, htr, hpl, hst, hdp⟩ := lensOK_spec m hlens
  have h1 : pyListUpdate (m.getAttr .vpvs) lay (fun old => applyOp sgn old inc)
      = .ok (m.vpvs.set lay (applyOp sgn (m.vpvs.getD lay 0) inc)) := by
    unfold pyListUpdate
    rw [if_pos (show lay < (m.getAttr MAttr.vpvs).length by
      show lay < m.vpvs.length
      rw [hvv]; exact hlay)]
    rfl
  generalize hL : m.vpvs.set lay (applyOp sgn (m.vpvs.getD lay 0) inc) = L at h1 ⊢
  have hLlen : L.length = m.vpvs.length := by
    rw [← hL]
    simp [List.length_set]
  have h2 : pyListSet (m.setAttr MAttr.vpvs L).flag lay 1
      = .ok (m.flag.set lay 1) := by
    show pyListSet m.flag lay 1 = _
    unfold pyListSet
    rw [if_pos (by rw [hfl]; exact hlay)]
  have h3 : pyListGet (m.setAttr MAttr.vpvs L).ani lay
      = .ok (m.ani.getD lay 0) := by
    show pyListGet m.ani lay = _
    unfold pyListGet
    rw [if_pos (by rw [han]; exact hlay)]
  have hlen2 : ∀ fl2 : List ℚ,
      ({ m.setAttr MAttr.vpvs L with flag := fl2 } : ModelState).vp.length
        = ({ m.setAttr MAttr.vpvs L with flag := fl2 } : ModelState).vpvs.length := by
    intro fl2
    show m.vp.length = L.length
    rw [hLlen, hvp2, hvv]
  have hcap2 : ∀ fl2 : List ℚ,
      ({ m.setAttr MAttr.vpvs L with flag := fl2 } : ModelState).nlay
        ≤ ({ m.setAttr MAttr.vpvs L with flag := fl2 } : ModelState).maxlay :=
    fun _ => hmax
  by_cases hav : m.ani.getD lay 0 ≠ 0
  · have hkey : applyDirective degrad m .vpvs lay sgn inc (some "vp") =
        Model.update degrad
          { m.setAttr MAttr.vpvs L with
            flag := (m.flag.set lay 1).set lay 0 } (some "vp") := by
      simp only [applyDirective, h1, h2, h3]
      rw [if_pos hav]
    rw [hkey, update_fixvp_result degrad _ (hlen2 _) (hcap2 _)]
    refine ⟨rfl, rfl, ?_⟩
    show ((m.flag.set lay 1).set lay 0).getD lay 0
      = if m.ani.getD lay 0 = 0 then 1 else 0
    rw [List.set_set, getD_set_self m.flag lay 0 (by rw [hfl]; exact hlay), if_neg hav]
  · have hkey : applyDirective degrad m .vpvs lay sgn inc (some "vp") =
        Model.update degrad
          { m.setAttr MAttr.vpvs L with flag := m.flag.set lay 1 } (some "vp") := by
      simp only [applyDirective, h1, h2, h3]
      rw [if_neg hav]
    rw [hkey, update_fixvp_result degrad _ (hlen2 _) (hcap2 _)]
    refine ⟨rfl, rfl, ?_⟩
    show (m.flag.set lay 1).getD lay 0 = if m.ani.getD lay 0 = 0 then 1 else 0
    rw [getD_set_self m.flag lay 1 (by rw [hfl]; exact hlay),
      if_pos (by simpa using hav)]

set_option maxHeartbeats 1000000 in
/-- Behaviour of the applied directive body for the `psp` key (`fix='vs'`):
the Vp/Vs ratio entry receives the unconverted signed value and the flag is
recomputed from the anisotropy of the affected layer. -/
theorem applyDirective_fixvs_spec (degrad : ℚ) (m : ModelState)
    (lay : Nat) (sgn : Char) (inc : ℚ)
    (hlens : lensOK m = true) (hmax : m.nlay ≤ m.maxlay) (hlay : lay < m.nlay) :
    (applyDirective degrad m .vpvs lay sgn inc (some "vs")).2 = none ∧
    (applyDirective degrad m .vpvs lay sgn inc (some "vs")).1.vpvs
      = m.vpvs.set lay (applyOp sgn (m.vpvs.getD lay 0) inc) ∧
    ((applyDirective degrad m .vpvs lay sgn inc (some "vs")).1.flag.getD lay 0
      = if (applyDirective degrad m .vpvs lay sgn inc (some "vs")).1.ani.getD lay 0 = 0
        then 1 else 0) := by
  obtain ⟨hth, hrh, hvp2, hvs2, hvv, hfl, han, htr, hpl, hst, hdp⟩ := lensOK_spec m hlens
  have h1 : pyListUpdate (m.getAttr .vpvs) lay (fun old => applyOp sgn old inc)
      = .ok (m.vpvs.set lay (applyOp sgn (m.vpvs.getD lay 0) inc)) := by
    unfold pyListUpdate
    rw [if_pos (show lay < (m.getAttr MAttr.vpvs).length by
      show lay < m.vpvs.length
      rw [hvv]; exact hlay)]
    rfl
  generalize hL : m.vpvs.set lay (applyOp sgn (m.vpvs.getD lay 0) inc) = L at h1 ⊢
  have hLlen : L.length = m.vpvs.length := by
    rw [← hL]
    simp [List.length_set]
  have h2 : pyListSet (m.setAttr MAttr.vpvs L).flag lay 1
      = .ok (m.flag.set lay 1) := by
    show pyListSet m.flag lay 1 = _
    unfold pyListSet
    rw [if_pos (by rw [hfl]; exact hlay)]
  have h3 : pyListGet (m.setAttr MAttr.vpvs L).ani lay
      = .ok (m.ani.getD lay 0) := by
    show pyListGet m.ani lay = _
    unfold pyListGet
    rw [if_pos (by rw [han]; exact hlay)]
  have hlen2 : ∀ fl2 : List ℚ,
      ({ m.setAttr MAttr.vpvs L with flag := fl2 } : ModelState).vs.length
        = ({ m.setAttr MAttr.vpvs L with flag := fl2 } : ModelState).vpvs.length := by
    intro fl2
    show m.vs.length = L.length
    rw [hLlen, hvs2, hvv]
  have hcap2 : ∀ fl2 : List ℚ,
      ({ m.setAttr MAttr.vpvs L with flag := fl2 } : ModelState).nlay
        ≤ ({ m.setAttr MAttr.vpvs L with flag := fl2 } : ModelState).maxlay :=
    fun _ => hmax
  by_cases hav : m.ani.getD lay 0 ≠ 0
  · have hkey : applyDirective degrad m .vpvs lay sgn inc (some "vs") =
        Model.update degrad
          { m.setAttr MAttr.vpvs L with
            flag := (m.flag.set lay 1).set lay 0 } (some "vs") := by
      simp only [applyDirective, h1, h2, h3]
      rw [if_pos hav]
    rw [hkey, update_fixvs_result degrad _ (hlen2 _) (hcap2 _)]
    refine ⟨rfl, rfl, ?_⟩
    show ((m.flag.set lay 1).set lay 0).getD lay 0
      = if m.ani.getD lay 0 = 0 then 1 else 0
    rw [List.set_set, getD_set_self m.flag lay 0 (by rw [hfl]; exact hlay), if_neg hav]
  · have hkey : applyDirective degrad m .vpvs lay sgn inc (some "vs") =
        Model.update degrad
          { m.setAttr MAttr.vpvs L with flag := m.flag.set lay 1 } (some "vs") := by
      simp only [applyDirective, h1, h2, h3]
      rw [if_neg hav]
    rw [hkey, update_fixvs_result degrad _ (hlen2 _) (hcap2 _)]
    refine ⟨rfl, rfl, ?_⟩
    show (m.flag.set lay 1).getD lay 0 = if m.ani.getD lay 0 = 0 then 1 else 0
    rw [getD_set_self m.flag lay 1 (by rw [hfl]; exact hlay),
      if_pos (by simpa using hav)]

set_option maxHeartbeats 1600000 in
/-- C7: for every well-formed change-command directive (parsed key, sign,
layer and value, with the key known to the attribute dictionary and the
layer in range on a well-formed model), the value is multiplied by 1000
before application exactly for the thickness and velocity keys `t`, `vp`,
`vs` and applied unconverted for all other keys; the affected layer's
isotropy flag ends up isotropic exactly when its anisotropy is 0; and for a
thickness directive on a model with consistent Vp/Vs ratio every attribute
of every other layer is unchanged. -/
theorem C7_change_conversion (degrad : ℚ) (m : ModelState) (cmd : List Char)
    (att : List Char) (sgn : Char) (lay : Nat) (inc : ℚ) (attr : MAttr)
    (hparse : parseDirective cmd = some (att, sgn, lay, inc))
    (hkey : ATTmap att = some attr)
    (hlens : lensOK m = true) (hmax : m.nlay ≤ m.maxlay) (hlay : lay < m.nlay) :
    (Model.changeOne degrad m cmd).2 = none ∧
    (Model.changeOne degrad m cmd).1.getAttr attr
      = (m.getAttr attr).set lay
          (applyOp sgn ((m.getAttr attr).getD lay 0)
            (if att = ['t'] ∨ att = ['v', 'p'] ∨ att = ['v', 's'] then inc * 1000
             else inc)) ∧
    ((Model.changeOne degrad m cmd).1.flag.getD lay 0
      = if (Model.changeOne degrad m cmd).1.ani.getD lay 0 = 0 then 1 else 0) ∧
    (att = ['t'] → m.vpvs = List.zipWith (· / ·) m.vp m.vs →
      (∀ b : MAttr, b ≠ MAttr.thickn → b ≠ MAttr.flag →
        (Model.changeOne degrad m cmd).1.getAttr b = m.getAttr b) ∧
      (∀ j, j ≠ lay →
        (Model.changeOne degrad m cmd).1.thickn.getD j 0 = m.thickn.getD j 0 ∧
        (Model.changeOne degrad m cmd).1.flag.getD j 0 = m.flag.getD j 0)) := by
  simp only [ATTmap] at hkey
  split_ifs at hkey with h1 h2 h3 h4 h5 h6 h7 h8 h9 h10
  · subst h1
    injection hkey with hA
    subst hA
    have hone : Model.changeOne degrad m cmd
        = applyDirective degrad m .thickn lay sgn (inc * 1000) none := by
      simp only [Model.changeOne, hparse]
      rfl
    obtain ⟨s1, s2, s3, s4, s5, s6⟩ :=
      applyDirective_none_spec degrad m .thickn lay sgn (inc * 1000) hlens hmax hlay
        (by decide) (by decide)
    have hvpE : (applyDirective degrad m MAttr.thickn lay sgn (inc * 1000) none).1.vp
        = m.vp := s5 .vp (by decide) (by decide) (by decide)
    have hvsE : (applyDirective degrad m MAttr.thickn lay sgn (inc * 1000) none).1.vs
        = m.vs := s5 .vs (by decide) (by decide) (by decide)
    refine ⟨by rw [hone]; exact s1, by rw [hone]; exact s2, by rw [hone]; exact s3, ?_⟩
    intro _ hinv
    refine ⟨?_, ?_⟩
    · intro b hb1 hb2
      rw [hone]
      cases b with
      | thickn => exact absurd rfl hb1
      | flag => exact absurd rfl hb2
      | vpvs =>
          show (applyDirective degrad m MAttr.thickn lay sgn (inc * 1000) none).1.vpvs
            = m.vpvs
          rw [s4, hvpE, hvsE, ← hinv]
      | rho => exact s5 .rho (by decide) (by decide) (by decide)
      | vp => exact hvpE
      | vs => exact hvsE
      | ani => exact s5 .ani (by decide) (by decide) (by decide)
      | trend => exact s5 .trend (by decide) (by decide) (by decide)
      | plunge => exact s5 .plunge (by decide) (by decide) (by decide)
      | strike => exact s5 .strike (by decide) (by decide) (by decide)
      | dip => exact s5 .dip (by decide) (by decide) (by decide)
    · intro j hj
      constructor
      · rw [hone]
        have s2' : (applyDirective degrad m MAttr.thickn lay sgn (inc * 1000) none).1.thickn
            = m.thickn.set lay (applyOp sgn (m.thickn.getD lay 0) (inc * 1000)) := s2
        rw [s2']
        exact getD_set_ne _ lay j _ (fun hc => hj hc.symm)
      · rw [hone]
        exact s6 j hj
  · subst h2
    injection hkey with hA
    subst hA
    have hone : Model.changeOne degrad m cmd
        = applyDirective degrad m .vp lay sgn (inc * 1000) none := by
      simp only [Model.changeOne, hparse]
      rfl
    obtain ⟨s1, s2, s3, s4, s5, s6⟩ :=
      applyDirective_none_spec degrad m .vp lay sgn (inc * 1000) hlens hmax hlay
        (by decide) (by decide)
    exact ⟨by rw [hone]; exact s1, by rw [hone]; exact s2, by rw [hone]; exact s3,
      fun hatt => absurd hatt (by decide)⟩
  · subst h3
    injection hkey with hA
    subst hA
    have hone : Model.changeOne degrad m cmd
        = applyDirective degrad m .vs lay sgn (inc * 1000) none := by
      simp only [Model.changeOne, hparse]
      rfl
    obtain ⟨s1, s2, s3, s4, s5, s6⟩ :=
      applyDirective_none_spec degrad m .vs lay sgn (inc * 1000) hlens hmax hlay
        (by decide) (by decide)
    exact ⟨by rw [hone]; exact s1, by rw [hone]; exact s2, by rw [hone]; exact s3,
      fun hatt => absurd hatt (by decide)⟩
  · subst h4
    injection hkey with hA
    subst hA
    have hone : Model.changeOne degrad m cmd
        = applyDirective degrad m .vpvs lay sgn inc (some "vs") := by
      simp only [Model.changeOne, hparse]
      rfl
    obtain ⟨s1, s2, s3⟩ :=
      applyDirective_fixvs_spec degrad m lay sgn inc hlens hmax hlay
    exact ⟨by rw [hone]; exact s1, by rw [hone]; exact s2, by rw [hone]; exact s3,
      fun hatt => absurd hatt (by decide)⟩
  · subst h5
    injection hkey with hA
    subst hA
    have hone : Model.changeOne degrad m cmd
        = applyDirective degrad m .vpvs lay sgn inc (some "vp") := by
      simp only [Model.changeOne, hparse]
      rfl
    obtain ⟨s1, s2, s3⟩ :=
      applyDirective_fixvp_spec degrad m lay sgn inc hlens hmax hlay
    exact ⟨by rw [hone]; exact s1, by rw [hone]; exact s2, by rw [hone]; exact s3,
      fun hatt => absurd hatt (by decide)⟩
  · subst h6
    injection hkey with hA
    subst hA
    have hone : Model.changeOne degrad m cmd
        = applyDirective degrad m .strike lay sgn inc none := by
      simp only [Model.changeOne, hparse]
      rfl
    obtain ⟨s1, s2, s3, s4, s5, s6⟩ :=
      applyDirective_none_spec degrad m .strike lay sgn inc hlens hmax hlay
        (by decide) (by decide)
    exact ⟨by rw [hone]; exact s1, by rw [hone]; exact s2, by rw [hone]; exact s3,
      fun hatt => absurd hatt (by decide)⟩
  · subst h7
    injection hkey with hA
    subst hA
    have hone : Model.changeOne degrad m cmd
        = applyDirective degrad m .dip lay sgn inc none := by
      simp only [Model.changeOne, hparse]
      rfl
    obtain ⟨s1, s2, s3, s4, s5, s6⟩ :=
      applyDirective_none_spec degrad m .dip lay sgn inc hlens hmax hlay
        (by decide) (by decide)
    exact ⟨by rw [hone]; exact s1, by rw [hone]; exact s2, by rw [hone]; exact s3,
      fun hatt => absurd hatt (by decide)⟩
  · subst h8
    injection hkey with hA
    subst hA
    have hone : Model.changeOne degrad m cmd
        = applyDirective degrad m .ani lay sgn inc none := by
      simp only [Model.changeOne, hparse]
      rfl
    obtain ⟨s1, s2, s3, s4, s5, s6⟩ :=
      applyDirective_none_spec degrad m .ani lay sgn inc hlens hmax hlay
        (by decide) (by decide)
    exact ⟨by rw [hone]; exact s1, by rw [hone]; exact s2, by rw [hone]; exact s3,
      fun hatt => absurd hatt (by decide)⟩
  · subst h9
    injection hkey with hA
    subst hA
    have hone : Model.changeOne degrad m cmd
        = applyDirective degrad m .trend lay sgn inc none := by
      simp only [Model.changeOne, hparse]
      rfl
    obtain ⟨s1, s2, s3, s4, s5, s6⟩ :=
      applyDirective_none_spec degrad m .trend lay sgn inc hlens hmax hlay
        (by decide) (by decide)
    exact ⟨by rw [hone]; exact s1, by rw [hone]; exact s2, by rw [hone]; exact s3,
      fun hatt => absurd hatt (by decide)⟩
  · subst h10
    injection hkey with hA
    subst hA
    have hone : Model.changeOne degrad m cmd
        = applyDirective degrad m .plunge lay sgn inc none := by
      simp only [Model.changeOne, hparse]
      rfl
    obtain ⟨s1, s2, s3, s4, s5, s6⟩ :=
      applyDirective_none_spec degrad m .plunge lay sgn inc hlens hmax hlay
        (by decide) (by decide)
    exact ⟨by rw [hone]; exact s1, by rw [hone]; exact s2, by rw [hone]; exact s3,
      fun hatt => absurd hatt (by decide)⟩

/-- A well-formed two-layer isotropic model whose layer 0 is 30 km thick
(30000 base units) and whose Vp/Vs ratio equals Vp / Vs elementwise. -/
def c7Model : ModelState :=
  { nlay := 2
    thickn := [30000, 20000]
    rho := [2800, 2900]
    vp := [6000, 8000]
    vs := [3000, 4000]
    vpvs := [2, 2]
    flag := [1, 1]
    ani := [0, 0]
    trend := [0, 0]
    plunge := [0, 0]
    strike := [0, 0]
    dip := [0, 0]
    maxlay := 15
    fthickn := []
    frho := []
    fvp := []
    fvs := []
    fflag := []
    fani := []
    ftrend := []
    fplunge := []
    fstrike := []
    fdip := [] }

/-- Witness for C7: `change("t0+10")` on the concrete model turns the
30000-unit layer-0 thickness into 40000 (the 10 km value is multiplied by
1000), leaves every attribute of layer 1 unchanged, and leaves layer 0
isotropic (its anisotropy is 0). -/
theorem C7_witness :
    (Model.change 1 c7Model "t0+10").2 = none ∧
    (Model.change 1 c7Model "t0+10").1.thickn.getD 0 0 = 40000 ∧
    (∀ b : MAttr, ((Model.change 1 c7Model "t0+10").1.getAttr b).getD 1 0
      = (c7Model.getAttr b).getD 1 0) ∧
    (Model.change 1 c7Model "t0+10").1.flag.getD 0 0 = 1 := by
  have hinv : c7Model.vpvs = List.zipWith (· / ·) c7Model.vp c7Model.vs := by
    show ([2, 2] : List ℚ) = List.zipWith (· / ·) [6000, 8000] [3000, 4000]
    norm_num
  obtain ⟨s1, s2, s3, s4⟩ :=
    C7_change_conversion 1 c7Model ['t', '0', '+', '1', '0'] ['t'] '+' 0
      (1 * ((digitsToNat ['1', '0'] : Nat) : ℚ)) MAttr.thickn rfl rfl (by decide)
      (by decide) (by decide)
  have hchange : Model.change 1 c7Model "t0+10"
      = Model.changeOne 1 c7Model ['t', '0', '+', '1', '0'] := by
    show Model.changeList 1 c7Model (splitOnChar ';' (String.data "t0+10")) = _
    rw [show splitOnChar ';' (String.data "t0+10") = [['t', '0', '+', '1', '0']] from rfl]
    rcases hc : Model.changeOne 1 c7Model ['t', '0', '+', '1', '0'] with ⟨m2, e2⟩
    have he : e2 = none := by
      have h := s1
      rw [hc] at h
      exact h
    subst he
    simp only [Model.changeList]
    rw [hc]
    rfl
  refine ⟨?_, ?_, ?_, ?_⟩
  · rw [hchange]
    exact s1
  · rw [hchange]
    have s2' : (Model.changeOne 1 c7Model ['t', '0', '+', '1', '0']).1.thickn
        = c7Model.thickn.set 0
            (applyOp '+' (c7Model.thickn.getD 0 0)
              (1 * ((digitsToNat ['1', '0'] : Nat) : ℚ) * 1000)) := s2
    rw [s2', getD_set_self c7Model.thickn 0 _ (by decide)]
    rw [show c7Model.thickn.getD 0 0 = (30000 : ℚ) from rfl,
      show digitsToNat ['1', '0'] = 10 from rfl]
    show (30000 : ℚ) + 1 * ((10 : Nat) : ℚ) * 1000 = 40000
    norm_num
  · intro b
    rw [hchange]
    cases b with
    | thickn => exact ((s4 rfl hinv).2 1 (by decide)).1
    | flag => exact ((s4 rfl hinv).2 1 (by decide)).2
    | rho => rw [(s4 rfl hinv).1 .rho (by decide) (by decide)]
    | vp => rw [(s4 rfl hinv).1 .vp (by decide) (by decide)]
    | vs => rw [(s4 rfl hinv).1 .vs (by decide) (by decide)]
    | vpvs => rw [(s4 rfl hinv).1 .vpvs (by decide) (by decide)]
    | ani => rw [(s4 rfl hinv).1 .ani (by decide) (by decide)]
    | trend => rw [(s4 rfl hinv).1 .trend (by decide) (by decide)]
    | plunge => rw [(s4 rfl hinv).1 .plunge (by decide) (by decide)]
    | strike => rw [(s4 rfl hinv).1 .strike (by decide) (by decide)]
    | dip => rw [(s4 rfl hinv).1 .dip (by decide) (by decide)]
  · rw [hchange]
    have hani : (Model.changeOne 1 c7Model ['t', '0', '+', '1', '0']).1.ani
        = c7Model.ani := (s4 rfl hinv).1 .ani (by decide) (by decide)
    rw [s3, hani, show c7Model.ani.getD 0 0 = (0 : ℚ) from rfl, if_pos rfl]

/-- Zipping a mapped list with a constant column of the same length pairs
every element with the constant. -/
theorem map_zip_replicate {β γ : Type} (xs : List β) (g : β → γ) (c : Nat)
    (k : Nat) (hk : k = xs.length) :
    (xs.map g).zip (List.replicate k c) = xs.map (fun x => (g x, c)) := by
  subst hk
  induction xs with
  | nil => rfl
  | cons a l ih =>
    simp only [List.map_cons, List.length_cons, List.replicate_succ, List.zip_cons_cons, ih]

/-- The flattened data column zipped with the `itr` column, block by
block. -/
theorem flat_zip (f : Nat → Nat → ℚ) (npts : Nat) (l : List Nat) :
    (l.flatMap (fun tr => (List.range npts).map (f tr))).zip
      (l.flatMap (fun tr => List.replicate npts tr))
    = l.flatMap (fun tr => (List.range npts).map (fun s => (f tr s, tr))) := by
  induction l with
  | nil => rfl
  | cons a l ih =>
    simp only [List.flatMap_cons]
    rw [List.zip_append (by simp), ih, map_zip_replicate (List.range npts) (f a) a npts
      (by simp)]

/-- Filtering the block-tagged pairs for one trace index keeps exactly the
blocks with that tag. -/
theorem filtermap_blocks (f : Nat → Nat → ℚ) (npts n : Nat) (l : List Nat) :
    (l.flatMap (fun tr => (List.range npts).map (fun s => (f tr s, tr)))).filterMap
        (fun p => if p.2 = n then some p.1 else none)
    = l.flatMap (fun tr => if tr = n then (List.range npts).map (f tr) else []) := by
  induction l with
  | nil => rfl
  | cons a l ih =>
    simp only [List.flatMap_cons, List.filterMap_append, ih]
    congr 1
    by_cases ha : a = n
    · subst ha
      simp only [List.filterMap_map]
      have hfun : ((fun p : ℚ × Nat => if p.2 = a then some p.1 else none)
          ∘ (fun s : Nat => (f a s, a))) = some ∘ (f a) := by
        funext s
        simp
      rw [hfun, List.filterMap_eq_map]
      simp
    · simp [List.filterMap_map, Function.comp, ha]

/-- Away from the selected index every block is empty. -/
theorem flatMap_single_none (B : Nat → List ℚ) (n : Nat) (l : List Nat) (hn : n ∉ l) :
    l.flatMap (fun tr => if tr = n then B tr else []) = [] := by
  induction l with
  | nil => rfl
  | cons a l ih =>
    simp only [List.flatMap_cons]
    rw [if_neg (fun h => hn (by rw [← h]; exact List.mem_cons_self a l)),
      ih (fun h => hn (List.mem_cons_of_mem a h))]
    rfl

/-- On a duplicate-free index list containing the selected index the
block concatenation collapses to the selected block. -/
theorem flatMap_single (B : Nat → List ℚ) (n : Nat) :
    ∀ (l : List Nat), l.Nodup → n ∈ l →
      l.flatMap (fun tr => if tr = n then B tr else []) = B n := by
  intro l
  induction l with
  | nil => intro _ h; exact absurd h (List.not_mem_nil n)
  | cons a l ih =>
    intro hd hm
    simp only [List.flatMap_cons]
    by_cases ha : a = n
    · subst ha
      rw [if_pos rfl, flatMap_single_none B a l (List.Nodup.not_mem hd), List.append_nil]
    · rw [if_neg ha, List.nil_append]
      exact ih (List.Nodup.of_cons hd)
        ((List.mem_cons.mp hm).resolve_left (fun h => ha h.symm))

/-- The pandas row selection of `read_traces` recovers exactly the cropped
per-trace waveform of the batch pipeline. -/
theorem dfSelect_flatF (traces : Nat → Nat → Nat → ℚ) (c npts ntr n : Nat)
    (hn : n < ntr) :
    dfSelect (flatF traces c npts ntr) (itrCol npts ntr) n
      = cropTrace traces npts c n := by
  unfold dfSelect flatF itrCol cropTrace
  rw [flat_zip (fun tr s => traces c s tr) npts (List.range ntr),
    filtermap_blocks (fun tr s => traces c s tr) npts n (List.range ntr),
    flatMap_single _ n (List.range ntr) (List.nodup_range ntr) (List.mem_range.mpr hn)]

/-- Elementwise inversion of a successful monadic map over `Except`. -/
theorem mapM_ok_nth {β γ : Type} (f : β → Except PyErr γ) :
    ∀ (l : List β) (r : List γ), l.mapM f = Except.ok r →
      r.length = l.length ∧
      ∀ (i : Nat) (x : β), l[i]? = some x →
        ∃ y, r[i]? = some y ∧ f x = Except.ok y := by
  intro l
  induction l with
  | nil =>
    intro r h
    rw [List.mapM_nil] at h
    injection h with h
    subst h
    exact ⟨rfl, fun i x hx => by simp at hx⟩
  | cons a l ih =>
    intro r h
    rw [List.mapM_cons] at h
    rcases ha : f a with e | b
    · rw [ha] at h
      exact Except.noConfusion h
    · rw [ha] at h
      rcases hl : l.mapM f with e | bs
      · rw [hl] at h
        exact Except.noConfusion h
      · rw [hl] at h
        injection h with h
        subst h
        obtain ⟨hlen, hnth⟩ := ih bs hl
        refine ⟨by simp [hlen], ?_⟩
        intro i x hx
        cases i with
        | zero =>
          simp only [List.getElem?_cons_zero] at hx
          injection hx with hx
          subst hx
          exact ⟨b, by simp, ha⟩
        | succ j =>
          simp only [List.getElem?_cons_succ] at hx ⊢
          exact hnth j x hx

/-- Inversion of a successful `read_traces` in the wave-aligned rotation
mode 2: the streams are the per-trace triples of `P`, `V` and `H` traces
carrying the demultiplexed data columns. -/
theorem read_traces_ok (traces : Nat → Nat → Nat → ℚ) (geom : List (ℚ × ℚ))
    (dt shift : ℚ) (npts ntr : Nat) (streams : List (List RTrace))
    (h : read_traces traces geom dt 2 shift npts ntr = Except.ok streams) :
    streams = (List.range ntr).map (fun n =>
      [ { channel := ['B', 'H', 'P'], baz := (geom.getD n (0, 0)).1,
          slow := (geom.getD n (0, 0)).2,
          data := dfSelect (flatF traces 0 npts ntr) (itrCol npts ntr) n }
      , { channel := ['B', 'H', 'V'], baz := (geom.getD n (0, 0)).1,
          slow := (geom.getD n (0, 0)).2,
          data := dfSelect (flatF traces 1 npts ntr) (itrCol npts ntr) n }
      , { channel := ['B', 'H', 'H'], baz := (geom.getD n (0, 0)).1,
          slow := (geom.getD n (0, 0)).2,
          data := dfSelect (flatF traces 2 npts ntr) (itrCol npts ntr) n } ]) := by
  have h2 : (if npts * ntr = 0 then
        (Except.error PyErr.valueError : Except PyErr (List (List RTrace)))
      else if geom.length < ntr then Except.error PyErr.indexError
      else Except.ok ((List.range ntr).map (fun n =>
        [ { channel := ['B', 'H', 'P'], baz := (geom.getD n (0, 0)).1,
            slow := (geom.getD n (0, 0)).2,
            data := dfSelect (flatF traces 0 npts ntr) (itrCol npts ntr) n }
        , { channel := ['B', 'H', 'V'], baz := (geom.getD n (0, 0)).1,
            slow := (geom.getD n (0, 0)).2,
            data := dfSelect (flatF traces 1 npts ntr) (itrCol npts ntr) n }
        , { channel := ['B', 'H', 'H'], baz := (geom.getD n (0, 0)).1,
            slow := (geom.getD n (0, 0)).2,
            data := dfSelect (flatF traces 2 npts ntr) (itrCol npts ntr) n } ])))
      = Except.ok streams := h
  split at h2
  · exact Except.noConfusion h2
  · split at h2
    · exact Except.noConfusion h2
    · injection h2 with h2
      exact h2.symm

/-- Inversion of a successful `calculate_rfs` in rotation mode 2 for P
waves: it is the monadic map of the single-stream computation with the
`V`, `H`, `P` component triple. -/
theorem calculate_rfs_ok {α : Type} (fft : List ℚ → α) (specDiv : α → α → α)
    (specNeg : α → α) (ifft : α → α) (real : α → List ℚ)
    (fftshift : List ℚ → List ℚ) (streams : List (List RTrace))
    (rfs : List (RTrace × RTrace))
    (h : calculate_rfs fft specDiv specNeg ifft real fftshift 2 "P" streams
      = Except.ok rfs) :
    streams.mapM (calcRF1 fft specDiv specNeg ifft real fftshift "P" ('V', 'H', 'P'))
      = Except.ok rfs := h

/-- The receiver-function pair of one wave-aligned stream for an incident P
wave: both components are spectrally divided by the `P` trace. -/
theorem calcRF1_P {α : Type} (fft : List ℚ → α) (specDiv : α → α → α)
    (specNeg : α → α) (ifft : α → α) (real : α → List ℚ)
    (fftshift : List ℚ → List ℚ) (b s : ℚ) (d0 d1 d2 : List ℚ) :
    calcRF1 fft specDiv specNeg ifft real fftshift "P" ('V', 'H', 'P')
      [ { channel := ['B', 'H', 'P'], baz := b, slow := s, data := d0 }
      , { channel := ['B', 'H', 'V'], baz := b, slow := s, data := d1 }
      , { channel := ['B', 'H', 'H'], baz := b, slow := s, data := d2 } ]
      = Except.ok
          ({ channel := ['R', 'F', 'V'], baz := b, slow := s,
             data := fftshift (real (ifft (specDiv (fft d1) (fft d0)))) },
           { channel := ['R', 'F', 'H'], baz := b, slow := s,
             data := fftshift (real (ifft (specDiv (fft d2) (fft d0)))) }) := rfl

set_option maxHeartbeats 1000000 in
/-- C1: the batch pipeline `filtered_rf_array` produces one row pair per
trace index below `ntr`, and row `n` holds exactly the bandpass-filtered
(second-order coefficients for corners `2*dt*fmin, 2*dt*fmax`) data of the
two receiver functions that `read_traces` (rotation 2) followed by
`calculate_rfs` (wave type P) yields for trace `n` - radial-equivalent
first, transverse-equivalent second. -/
theorem C1_batch_pipeline {α C : Type} (fft : List ℚ → α) (specDiv : α → α → α)
    (specNeg : α → α) (ifft : α → α) (real : α → List ℚ)
    (fftshift : List ℚ → List ℚ) (lfilter : C → List ℚ → List ℚ)
    (butter : Nat → ℚ × ℚ → C) (cache0 : List ((Nat × ℚ × ℚ) × C))
    (sspread : Nat → Nat → Nat → ℚ) (geom : List (ℚ × ℚ)) (dt shift : ℚ)
    (npts ntr : Nat) (fmin fmax : ℚ) (streams : List (List RTrace))
    (rfs : List (RTrace × RTrace))
    (hread : read_traces sspread geom dt 2 shift npts ntr = Except.ok streams)
    (hrfs : calculate_rfs fft specDiv specNeg ifft real fftshift 2 "P" streams
      = Except.ok rfs)
    (n : Nat) (hn : n < ntr) :
    (filtered_rf_array fft specDiv ifft real fftshift lfilter butter cache0
        sspread ntr npts dt fmin fmax).length = ntr ∧
    rfs.length = ntr ∧
    (filtered_rf_array fft specDiv ifft real fftshift lfilter butter cache0
        sspread ntr npts dt fmin fmax)[n]?
      = (rfs[n]?).map (fun pr =>
          (bandpass lfilter
            (get_cached_bandpass_coefs butter cache0 2
              (2 * dt * fmin, 2 * dt * fmax)).1 pr.1.data,
           bandpass lfilter
            (get_cached_bandpass_coefs butter cache0 2
              (2 * dt * fmin, 2 * dt * fmax)).1 pr.2.data)) := by
  have hstr := read_traces_ok sspread geom dt shift npts ntr streams hread
  have hm := calculate_rfs_ok fft specDiv specNeg ifft real fftshift streams rfs hrfs
  obtain ⟨hlen, hnth⟩ := mapM_ok_nth _ streams rfs hm
  have hslen : streams.length = ntr := by
    rw [hstr]
    simp
  refine ⟨by simp [filtered_rf_array], by rw [hlen, hslen], ?_⟩
  have hsn : streams[n]? = some
      [ { channel := ['B', 'H', 'P'], baz := (geom.getD n (0, 0)).1,
          slow := (geom.getD n (0, 0)).2, data := cropTrace sspread npts 0 n }
      , { channel := ['B', 'H', 'V'], baz := (geom.getD n (0, 0)).1,
          slow := (geom.getD n (0, 0)).2, data := cropTrace sspread npts 1 n }
      , { channel := ['B', 'H', 'H'], baz := (geom.getD n (0, 0)).1,
          slow := (geom.getD n (0, 0)).2, data := cropTrace sspread npts 2 n } ] := by
    rw [hstr, List.getElem?_map, List.getElem?_range hn]
    simp only [Option.map_some']
    rw [dfSelect_flatF sspread 0 npts ntr n hn, dfSelect_flatF sspread 1 npts ntr n hn,
      dfSelect_flatF sspread 2 npts ntr n hn]
  obtain ⟨y, hy, hfy⟩ := hnth n _ hsn
  rw [calcRF1_P] at hfy
  injection hfy with hfy
  rw [hy, ← hfy]
  simp only [filtered_rf_array]
  rw [List.getElem?_map, List.getElem?_range hn]
  rfl

/-- Witness for C1: a one-trace, one-sample instance with identity spectral
primitives and a trivial filter, on which the batch array row equals the
bandpassed receiver-function pair of the full pipeline. -/
theorem C1_witness :
    (filtered_rf_array (id : List ℚ → List ℚ) (fun a _ => a) id (id : List ℚ → List ℚ)
        id (fun _ l => l) (fun _ _ => ()) [] (fun _ _ _ => (0 : ℚ)) 1 1 1 1 1).length
      = 1 ∧
    ([(({ channel := ['R', 'F', 'V'], baz := 0, slow := 0, data := [0] } : RTrace),
       ({ channel := ['R', 'F', 'H'], baz := 0, slow := 0, data := [0] } : RTrace))]).length
      = 1 ∧
    (filtered_rf_array (id : List ℚ → List ℚ) (fun a _ => a) id (id : List ℚ → List ℚ)
        id (fun _ l => l) (fun _ _ => ()) [] (fun _ _ _ => (0 : ℚ)) 1 1 1 1 1)[0]?
      = (([(({ channel := ['R', 'F', 'V'], baz := 0, slow := 0, data := [0] } : RTrace),
            ({ channel := ['R', 'F', 'H'], baz := 0, slow := 0, data := [0] } : RTrace))])[0]?).map
          (fun pr =>
            (bandpass (fun _ l => l)
              (get_cached_bandpass_coefs (fun _ _ => ()) [] 2 (2 * 1 * 1, 2 * 1 * 1)).1
              pr.1.data,
             bandpass (fun _ l => l)
              (get_cached_bandpass_coefs (fun _ _ => ()) [] 2 (2 * 1 * 1, 2 * 1 * 1)).1
              pr.2.data)) :=
  C1_batch_pipeline id (fun a _ => a) id id id id (fun _ l => l) (fun _ _ => ())
    [] (fun _ _ _ => 0) [(0, 0)] 1 0 1 1 1 1
    [[{ channel := ['B', 'H', 'P'], baz := 0, slow := 0, data := [0] },
      { channel := ['B', 'H', 'V'], baz := 0, slow := 0, data := [0] },
      { channel := ['B', 'H', 'H'], baz := 0, slow := 0, data := [0] }]]
    [({ channel := ['R', 'F', 'V'], baz := 0, slow := 0, data := [0] },
      { channel := ['R', 'F', 'H'], baz := 0, slow := 0, data := [0] })]
    rfl rfl 0 (by decide)
